import Mathlib

/-!
Verification development for the isp-workbook-parser table-extraction engine.

The Python source is shallowly embedded: spreadsheet cells become an inductive
value type, pandas and openpyxl operations become explicit list functions, the
regular-expression based sanitisers become character-list transformations with
the same semantics, and Python exceptions become the Except monad.
-/

namespace ISP

/-! ## Characters and strings -/

/-- ASCII whitespace, the characters matched by the regex class in re patterns
used by the sanitisers (the source data is ASCII text). -/
def isWs (c : Char) : Bool :=
  c = ' ' || c = '\t' || c = '\n' || c = '\r' || c = '\x0b' || c = '\x0c'

/-- Word characters, the regex class of alphanumerics and underscore. -/
def isWordChar (c : Char) : Bool :=
  c.isAlphanum || c = '_'

/-- Does the character list start with the given pattern list? -/
def chStarts : List Char → List Char → Bool
  | [], _ => true
  | _ :: _, [] => false
  | p :: ps, c :: cs => p = c && chStarts ps cs

/-- Does the pattern occur as a contiguous run inside the character list? -/
def chHasSub (pat : List Char) : List Char → Bool
  | [] => chStarts pat []
  | c :: cs => chStarts pat (c :: cs) || chHasSub pat cs

/-- Python `needle in hay` on strings. -/
def strContains (hay needle : String) : Bool :=
  chHasSub needle.data hay.data

/-- Longest prefix of characters satisfying p, together with the rest. -/
def spanP (p : Char → Bool) : List Char → List Char × List Char
  | [] => ([], [])
  | c :: cs =>
    if p c then
      let r := spanP p (c :: cs).tail
      (c :: r.1, r.2)
    else ([], c :: cs)

theorem spanP_eq (p : Char → Bool) (c : Char) (cs : List Char) :
    spanP p (c :: cs) =
      if p c then ((c :: (spanP p cs).1), (spanP p cs).2) else ([], c :: cs) := by
  simp [spanP]

/-- Drop whitespace from the front (python str.strip side one). -/
def dropWsFront (cs : List Char) : List Char := (spanP isWs cs).2

/-- Python `str.strip()` with no argument: remove whitespace at both ends. -/
def stripWs (cs : List Char) : List Char :=
  (dropWsFront (dropWsFront cs.reverse).reverse)

/-- Python `str.strip(" ")`: remove only space characters at both ends
(the data-value sanitiser variant). -/
def stripSpaces (cs : List Char) : List Char :=
  ((spanP (fun c => c = ' ') ((spanP (fun c => c = ' ') cs).2.reverse)).2).reverse

/-! ## The sanitiser regex operations, as character-list functions -/

/-- Regex sub of newline with a single space. -/
def newlinesToSpace (cs : List Char) : List Char :=
  cs.map (fun c => if c = '\n' then ' ' else c)

/-- Regex sub replacing each non-overlapping pair of adjacent whitespace
characters with one space, scanning left to right: a run of three whitespace
characters leaves a residual pair, so the operation is not idempotent. -/
def collapseDoubleWs : List Char → List Char
  | c1 :: c2 :: rest =>
    if isWs c1 && isWs c2 then ' ' :: collapseDoubleWs rest
    else c1 :: collapseDoubleWs (c2 :: rest)
  | l => l

/-- Is every character a dot or a digit? -/
def allDotDigit (cs : List Char) : Bool := cs.all (fun c => c = '.' || c.isDigit)

/-- Regex sub removing a trailing duplicate-column suffix: the leftmost dot
that is followed only by (one or more) dots and digits up to the end of the
string starts the removed span. -/
def stripDupSuffix : List Char → List Char
  | [] => []
  | c :: rest =>
    if c = '.' && !rest.isEmpty && allDotDigit rest then []
    else c :: stripDupSuffix rest

/-- Modelled from the spec: the table of known typo and unwanted-note substring
corrections (module custom_string_replacements, absent from the sources; the
spec describes it only as a small fixed table of corrections, giving no
entries, so it is modelled as the empty table). -/
def typosAndNotes : List (String × String) := []

/-- Replace every occurrence of the pattern inside the character list. -/
def replaceAllSub (pat repl : List Char) : List Char → List Char
  | [] => []
  | c :: cs =>
    if !pat.isEmpty && chStarts pat (c :: cs) then
      repl ++ replaceAllSub pat repl (cs.drop (pat.length - 1))
    else c :: replaceAllSub pat repl cs
termination_by cs => cs.length
decreasing_by
  · simp only [List.length_drop, List.length_cons]
    omega
  · simp

/-- Fold of the known-correction table over one string. -/
def customStringReplacements (s : String) : String :=
  typosAndNotes.foldl
    (fun acc pr => String.mk (replaceAllSub pr.1.data pr.2.data acc.data)) s

/-- The column-name footnote regex: remove a final digit when the preceding
character is absent or is none of: uppercase letter, caret, whitespace, digit.
A lone digit has no preceding character, so the negative lookbehind succeeds
and the digit is removed. -/
def removeColumnFootnote (cs : List Char) : List Char :=
  match cs.reverse with
  | [] => cs
  | d :: rest =>
    if d.isDigit &&
        (match rest with
         | [] => true
         | p :: _ => !(p.isUpper || p = '^' || isWs p || p.isDigit)) then
      rest.reverse
    else cs

/-- The data-value footnote regex: remove a final digit only when a preceding
character exists and is none of: uppercase letter, whitespace, digit, dot,
underscore, hyphen, hash, caret (positive lookbehind on the complement class,
so a lone digit is kept). -/
def removeValueFootnote (cs : List Char) : List Char :=
  match cs.reverse with
  | [] => cs
  | d :: rest =>
    match rest with
    | [] => cs
    | p :: _ =>
      if d.isDigit &&
          !(p.isUpper || isWs p || p.isDigit || p = '.' || p = '_' ||
            p = '-' || p = '#' || p = '^') then
        rest.reverse
      else cs

/-- Regex sub removing one trailing asterisk. -/
def removeTrailingAsterisk (cs : List Char) : List Char :=
  match cs.reverse with
  | '*' :: rest => rest.reverse
  | _ => cs

/-- Thousands-comma regex: remove each comma whose neighbours in the original
string are digits on both sides (the lookaround assertions inspect the
original positions, so removals never enable one another). -/
def removeThousandsCommasAux (prev : Option Char) : List Char → List Char
  | [] => []
  | c :: rest =>
    let nextDigit := match rest with
      | [] => false
      | d :: _ => d.isDigit
    if c = ',' && (match prev with | some p => p.isDigit | none => false) && nextDigit
    then removeThousandsCommasAux (some c) rest
    else c :: removeThousandsCommasAux (some c) rest

def removeThousandsCommas (cs : List Char) : List Char :=
  removeThousandsCommasAux none cs

/-! ## The notes-after-values regexes

Each of the three substitutions is anchored at the start of the string, so a
single match attempt at position zero decides the result.  The repeated group
of each pattern is a literal opening character followed by a nonempty greedy
character-class run and optional trailers; the classes exclude the opening
characters, so the greedy matchers below coincide with the backtracking
semantics of re.sub on these patterns. -/

theorem spanP_length (p : Char → Bool) :
    ∀ cs : List Char, (spanP p cs).1.length + (spanP p cs).2.length = cs.length := by
  intro cs
  induction cs with
  | nil => simp [spanP]
  | cons c cs ih =>
    by_cases h : p c <;> simp [spanP, h, ih] <;> omega

/-- The regex class inside the parenthetical-note group. -/
def notesCls1 (c : Char) : Bool :=
  isWordChar c || isWs c || c = '.' || c = '<' || c = '=' || c = '-' ||
    c = '/' || c = ','

/-- The regex class inside the hyphen-note group (also used by the third
substitution). -/
def notesCls2 (c : Char) : Bool :=
  isWordChar c || isWs c || c = '.' || c = '<' || c = '=' || c = '-' ||
    c = '(' || c = ')'

/-- Consume the optional closing parenthesis of a parenthetical note. -/
def dropCloseParen (cs : List Char) : List Char :=
  match cs with
  | ')' :: r => r
  | _ => cs

theorem dropCloseParen_le (cs : List Char) : (dropCloseParen cs).length ≤ cs.length := by
  unfold dropCloseParen
  split <;> simp

/-- Consume one optional whitespace character. -/
def dropOneWs (cs : List Char) : List Char :=
  match cs with
  | c :: r => if isWs c then r else cs
  | [] => cs

theorem dropOneWs_le (cs : List Char) : (dropOneWs cs).length ≤ cs.length := by
  unfold dropOneWs
  split
  · split <;> simp
  · simp

/-- One repetition of a note group: the literal opening character, a nonempty
run of the class, then (when enabled) an optional closing parenthesis and an
optional single whitespace.  Returns the rest of the string after the
repetition, or none when the repetition does not match. -/
def noteRep (opench : Char) (cls : Char → Bool) (closeOpt wsOpt : Bool)
    (cs : List Char) : Option (List Char) :=
  match cs with
  | [] => none
  | c :: rest =>
    if c = opench then
      match spanP cls rest with
      | ([], _) => none
      | (_ :: _, rem) =>
        let rem2 := if closeOpt then dropCloseParen rem else rem
        let rem3 := if wsOpt then dropOneWs rem2 else rem2
        some rem3
    else none

theorem noteRep_shrink (opench : Char) (cls : Char → Bool) (closeOpt wsOpt : Bool)
    (cs r : List Char) (h : noteRep opench cls closeOpt wsOpt cs = some r) :
    r.length < cs.length := by
  match cs with
  | [] => simp [noteRep] at h
  | c :: rest =>
    simp only [noteRep] at h
    by_cases hc : c = opench
    · rw [if_pos hc] at h
      match hs : spanP cls rest with
      | ([], _) => rw [hs] at h; simp at h
      | (a :: l, rem) =>
        rw [hs] at h
        simp only [Option.some.injEq] at h
        have hlen : (a :: l).length + rem.length = rest.length := by
          have := spanP_length cls rest
          rw [hs] at this
          exact this
        have hrem : rem.length < rest.length := by
          simp only [List.length_cons] at hlen
          omega
        have hr2 : (if closeOpt then dropCloseParen rem else rem).length ≤ rem.length := by
          split
          · exact dropCloseParen_le rem
          · exact le_refl _
        have hr3 : r.length ≤ (if closeOpt then dropCloseParen rem else rem).length := by
          rw [← h]
          split
          · exact dropOneWs_le _
          · exact le_refl _
        simp only [List.length_cons]
        omega
    · rw [if_neg hc] at h
      simp at h

/-- Zero or more further repetitions of a note group, returning the rest of
the string after the last successful repetition. -/
def noteRepMany (opench : Char) (cls : Char → Bool) (closeOpt wsOpt : Bool)
    (cs : List Char) : List Char :=
  match h : noteRep opench cls closeOpt wsOpt cs with
  | none => cs
  | some rest => noteRepMany opench cls closeOpt wsOpt rest
termination_by cs.length
decreasing_by
  exact noteRep_shrink opench cls closeOpt wsOpt cs rest h

/-- Digits or dot, the class of the leading captured value. -/
def isDigitDot (c : Char) : Bool := c.isDigit || c = '.'

/-- First substitution: a leading value, mandatory whitespace, then one or
more parenthetical note groups; the matched span is replaced by the captured
value, the tail after the match is kept. -/
def removeNotesParenthetical (cs : List Char) : List Char :=
  match spanP isDigitDot cs with
  | ([], _) => cs
  | (v :: vs, rest1) =>
    match spanP isWs rest1 with
    | ([], _) => cs
    | (_ :: _, rest2) =>
      match noteRep '(' notesCls1 true true rest2 with
      | none => cs
      | some rest3 => (v :: vs) ++ noteRepMany '(' notesCls1 true true rest3

/-- Does the string start like a financial-year notation, four digits, a
hyphen and at least two digits?  Such strings are protected from the
hyphen-note substitution by its negative lookahead. -/
def looksLikeFinYear (cs : List Char) : Bool :=
  match cs with
  | a :: b :: c :: d :: '-' :: e :: f :: _ =>
    a.isDigit && b.isDigit && c.isDigit && d.isDigit && e.isDigit && f.isDigit
  | _ => false

/-- Second substitution: unless the string starts like a financial year, a
leading value, an optional single whitespace, then one or more hyphen note
groups; the matched span is replaced by the captured value.  The optional
whitespace participates in a match only when a hyphen group follows it, which
is exactly what the backtracking engine produces since a hyphen is not
whitespace. -/
def removeNotesHyphen (cs : List Char) : List Char :=
  if looksLikeFinYear cs then cs
  else
    match spanP isDigitDot cs with
    | ([], _) => cs
    | (v :: vs, rest1) =>
      match noteRep '-' notesCls2 false false (dropOneWs rest1) with
      | none => cs
      | some rest2 => (v :: vs) ++ noteRepMany '-' notesCls2 false false rest2

/-- Third substitution: a leading hyphen, an optional single whitespace, then
one or more unclosed parenthetical groups; the whole match is removed. -/
def removeNotesLeadingHyphen (cs : List Char) : List Char :=
  match cs with
  | '-' :: rest =>
    match noteRep '(' notesCls2 false false (dropOneWs rest) with
    | none => cs
    | some rest2 => noteRepMany '(' notesCls2 false false rest2
  | _ => cs

/-- The three ordered substitutions of the notes-after-values sanitiser. -/
def removeNotesAfterValues (cs : List Char) : List Char :=
  removeNotesLeadingHyphen (removeNotesHyphen (removeNotesParenthetical cs))

/-! ## Cell values and numeric parsing -/

/-- A spreadsheet or table cell value: the null marker (None in openpyxl,
NaN in pandas), a text value, or a numeric value modelled as a rational. -/
inductive CellV where
  | blank : CellV
  | str : String → CellV
  | num : ℚ → CellV
deriving DecidableEq

/-- Rendering of a numeric cell as Python str would produce for an integer;
non-integer rationals are rendered as fractions, a divergence from decimal
float rendering that no theorem below depends on. -/
def numToStr (q : ℚ) : String :=
  if q.den = 1 then toString q.num else toString q.num ++ "/" ++ toString q.den

/-- Python str of a cell value, as used by astype(str): NaN renders as the
string nan. -/
def cellToPyStr : CellV → String
  | .blank => "nan"
  | .str s => s
  | .num q => numToStr q

/-- Natural number denoted by a digit run. -/
def digitsToNat (cs : List Char) : Nat :=
  cs.foldl (fun acc c => acc * 10 + (c.toNat - '0'.toNat)) 0

/-- Remove the first dot of the string, the replace with count one used by
the millions extractor before its isdigit check. -/
def removeFirstDot : List Char → List Char
  | [] => []
  | '.' :: r => r
  | c :: r => c :: removeFirstDot r

/-- Rational denoted by a digit string with at most one dot. -/
def decimalToRat (cs : List Char) : ℚ :=
  let ip := cs.takeWhile (fun c => c ≠ '.')
  let fp := (cs.dropWhile (fun c => c ≠ '.')).drop 1
  (digitsToNat ip : ℚ) + (digitsToNat fp : ℚ) / ((10 : ℚ) ^ fp.length)

/-- The millions shorthand matcher: an optional dollar sign, spaces, a run of
digits, commas and dots, spaces, a literal M ending the string.  On a match
whose comma-free numeral passes the single-dot digit check, the numeral is
scaled by one million; otherwise the value is returned unchanged. -/
def extractNumericValueMillions (s : String) : CellV :=
  let cs := s.data
  let cs1 := match cs with
    | '$' :: r => r
    | _ => cs
  let cs2 := (spanP isWs cs1).2
  match spanP (fun c => c.isDigit || c = ',' || c = '.') cs2 with
  | ([], _) => .str s
  | (numRun, rest) =>
    match (spanP isWs rest).2 with
    | ['M'] =>
      let numStr := numRun.filter (fun c => c ≠ ',')
      let noDot := removeFirstDot numStr
      if !noDot.isEmpty && noDot.all Char.isDigit then
        .num (decimalToRat numStr * 1000000)
      else .str s
    | _ => .str s

/-- The numeric grammar accepted by the pandas to_numeric string parser:
optional surrounding whitespace, an optional sign, digits with an optional
fractional part (one of the two digit runs may be empty but not both), and an
optional exponent. -/
def parsePyNumber (s : String) : Option ℚ :=
  let cs := stripWs s.data
  let (sign, cs1) := match cs with
    | '-' :: r => ((-1 : ℚ), r)
    | '+' :: r => ((1 : ℚ), r)
    | _ => ((1 : ℚ), cs)
  let (ip, cs2) := spanP Char.isDigit cs1
  let (fp, cs3) := match cs2 with
    | '.' :: r => spanP Char.isDigit r
    | _ => ([], cs2)
  if ip.isEmpty && fp.isEmpty then none
  else
    let mantissa : ℚ :=
      (digitsToNat ip : ℚ) + (digitsToNat fp : ℚ) / ((10 : ℚ) ^ fp.length)
    match cs3 with
    | [] => some (sign * mantissa)
    | e :: r =>
      if e = 'e' || e = 'E' then
        let (esign, r1) := match r with
          | '-' :: r2 => ((-1 : Int), r2)
          | '+' :: r2 => ((1 : Int), r2)
          | _ => ((1 : Int), r)
        match spanP Char.isDigit r1 with
        | ([], _) => none
        | (ed, []) =>
          some (sign * mantissa * ((10 : ℚ) ^ (esign * (digitsToNat ed : Int))))
        | (_, _ :: _) => none
      else none

/-! ## The data-value sanitisation pipeline -/

/-- The ordered data-value sanitisation pipeline applied to one string value,
translating the tuple of series functions: newlines to spaces, double
whitespace collapse, known corrections, space strip, trailing asterisk,
thousands commas, notes after values, trailing footnotes, and finally the
millions extraction which may turn the string into a number. -/
def valueSanitiseStr (s : String) : CellV :=
  let cs := s.data
  let cs := newlinesToSpace cs
  let cs := collapseDoubleWs cs
  let cs := (customStringReplacements (String.mk cs)).data
  let cs := stripSpaces cs
  let cs := removeTrailingAsterisk cs
  let cs := removeThousandsCommas cs
  let cs := removeNotesAfterValues cs
  let cs := removeValueFootnote cs
  extractNumericValueMillions (String.mk cs)

/-- The sanitisation pass as it acts on one cell of a column: only string
values are rewritten (the pass assigns its results at the string positions of
the column). -/
def valueSanitiseCell : CellV → CellV
  | .str s => valueSanitiseStr s
  | v => v

/-- The table-wide replacement of lone-hyphen values by the null marker. -/
def hyphenToNA : CellV → CellV
  | .str "-" => .blank
  | v => v

/-- to_numeric on one cell: null and numbers pass through, strings must parse
under the numeric grammar. -/
def toNumericCell : CellV → Option CellV
  | .blank => some .blank
  | .num q => some (.num q)
  | .str s => (parsePyNumber s).map CellV.num

/-- to_numeric applied cell by cell down a column, None when any cell fails. -/
def toNumericColAux : List CellV → Option (List CellV)
  | [] => some []
  | c :: rest =>
    match toNumericCell c, toNumericColAux rest with
    | some b, some bs => some (b :: bs)
    | _, _ => none

/-- to_numeric on a whole column, raising ValueError when any cell fails. -/
def toNumericColE (col : List CellV) : Except String (List CellV) :=
  match toNumericColAux col with
  | some nc => .ok nc
  | none => .error "ValueError"

/-- Is the cell a Python string? -/
def cellIsStr : CellV → Bool
  | .str _ => true
  | _ => false

/-- The sanitisation pass over one column: applied at the string positions
when any exist (and the identity otherwise, which the guard makes explicit). -/
def cleanedColumn (col : List CellV) : List CellV :=
  if col.any cellIsStr then col.map valueSanitiseCell else col

/-- The per-column body of the casting loop: attempt whole-column coercion;
on failure apply the sanitisation pass at the string positions and
re-attempt coercion exactly once, keeping the cleaned column when the retry
also fails.  Both ValueError raises are caught, so the function is total. -/
def castColumn (col : List CellV) : List CellV :=
  match toNumericColE col with
  | .ok nc => nc
  | .error _ =>
    match toNumericColE (cleanedColumn col) with
    | .ok nc => nc
    | .error _ => cleanedColumn col

/-! ## Column-name sanitisation -/

/-- The ordered column-name sanitisation pipeline: duplicate-column suffix
removal, known corrections, whitespace strip, newlines to spaces, double
whitespace collapse, trailing footnote removal. -/
def columnNameSanitiseStr (s : String) : String :=
  let cs := stripDupSuffix s.data
  let cs := (customStringReplacements (String.mk cs)).data
  let cs := stripWs cs
  let cs := newlinesToSpace cs
  let cs := collapseDoubleWs cs
  String.mk (removeColumnFootnote cs)

/-- Elementwise column-name sanitisation of a header (the astype str step is
the identity here because header names are already strings). -/
def columnNameSanitiseAll (names : List String) : List String :=
  names.map columnNameSanitiseStr

/-! ## Sheets, locators and data frames -/

/-- One spreadsheet cell: a value and a display number-format string
(openpyxl reports General for unformatted cells). -/
structure Cell where
  v : CellV
  fmt : String
deriving DecidableEq

/-- An unformatted cell holding the given value. -/
def plainCell (v : CellV) : Cell := ⟨v, "General"⟩

/-- The modelled worksheet: rows of cells, row r and column c of the sheet
being 1-based as in openpyxl.  Cells outside the stored lists are empty. -/
abbrev Sheet := List (List Cell)

/-- Cell lookup, 1-based, empty outside the populated extent. -/
def getCell (sh : Sheet) (r c : Nat) : Cell :=
  (((sh.get? (r - 1)).bind (fun row => row.get? (c - 1))).getD (plainCell .blank))

/-- openpyxl max_row of the modelled sheet. -/
def sheetMaxRow (sh : Sheet) : Nat := sh.length

/-- openpyxl max_column of the modelled sheet. -/
def sheetMaxCol (sh : Sheet) : Nat := sh.foldl (fun m row => max m row.length) 0

/-- openpyxl column_index_from_string on an uppercase letter run, A being 1. -/
def columnIndexFromString (s : String) : Nat :=
  s.data.foldl (fun acc c => acc * 26 + (c.toNat - 'A'.toNat + 1)) 0

/-- The first column letter of a range such as B:AF. -/
def rangeFirstStr (range : String) : String :=
  String.mk (range.data.takeWhile (fun c => c ≠ ':'))

/-- The last column letter of a range such as B:AF. -/
def rangeLastStr (range : String) : String :=
  String.mk ((range.data.dropWhile (fun c => c ≠ ':')).drop 1)

def rangeFirstCol (range : String) : Nat := columnIndexFromString (rangeFirstStr range)

def rangeLastCol (range : String) : Nat := columnIndexFromString (rangeLastStr range)

/-- The zero-based index of an alphabetical column within the data of a table
whose columns start at the first column of the range; negative when the
letter lies left of the range. -/
def findDataColumnIndex (colAlpha range : String) : Int :=
  (columnIndexFromString colAlpha : Int) - (rangeFirstCol range : Int)

/-- The shape of the skip_rows value: a single row, a list of rows, or the
start and end of a contiguous range (the dict shape). -/
inductive SkipSpec where
  | one (n : Int)
  | many (l : List Int)
  | rng (s e : Int)
deriving DecidableEq

/-- Python truthiness of a skip_rows value, as tested by read_table. -/
def skipTruthy : SkipSpec → Bool
  | .one n => n ≠ 0
  | .many l => !l.isEmpty
  | .rng _ _ => true

/-- The shape of the columns_with_merged_rows value. -/
inductive MergedSpec where
  | onecol (s : String)
  | manycols (l : List String)
deriving DecidableEq

/-- Python truthiness of a columns_with_merged_rows value. -/
def mergedTruthy : MergedSpec → Bool
  | .onecol s => !s.isEmpty
  | .manycols l => !l.isEmpty

/-- The header_rows field: a single row or a list of rows. -/
inductive HeaderRows where
  | single (n : Nat)
  | multi (l : List Nat)
deriving DecidableEq

/-- The table locator record. -/
structure TableConfig where
  name : String
  sheetName : String
  headerRows : HeaderRows
  endRow : Nat
  columnRange : String
  skipRows : Option SkipSpec := none
  columnsWithMergedRows : Option MergedSpec := none
  forwardFillValues : Bool := true
deriving DecidableEq

/-- The pydantic validation of the skip_rows field, whose annotated type is
an optional int or list of int: the dict shape fails validation. -/
def validateSkipRowsField : Option SkipSpec → Except String (Option SkipSpec)
  | none => .ok none
  | some (.one n) => .ok (some (.one n))
  | some (.many l) => .ok (some (.many l))
  | some (.rng _ _) => .error "ValidationError"

/-- The extracted table: an ordered header and the data rows. -/
structure DataFrame where
  cols : List String
  rows : List (List CellV)
deriving DecidableEq

/-! ## Reading a region the way pandas read_excel does -/

/-- The cells of one sheet row restricted to the usecols range, padded with
nulls up to the populated width of the sheet and truncated there. -/
def selectedRow (first last W : Nat) (row : List Cell) : List CellV :=
  (List.range (min last W + 1 - first)).map
    (fun j => (((row.get? (first - 1 + j)).map Cell.v).getD CellV.blank))

/-- The whole sheet restricted to the usecols range. -/
def readGrid (sh : Sheet) (first last : Nat) : List (List CellV) :=
  sh.map (selectedRow first last (sheetMaxCol sh))

/-- The pandas name of a header cell: a blank cell at selected position k
becomes Unnamed k. -/
def headerName (pos : Nat) : CellV → String
  | .blank => "Unnamed: " ++ toString pos
  | .str s => s
  | .num q => numToStr q

/-- The pandas renaming of duplicate column names: the k-th repetition of a
name gets a dot k suffix. -/
def mangleDupes (seen : List String) : List String → List String
  | [] => []
  | n :: rest =>
    let k := seen.count n
    (if k = 0 then n else n ++ "." ++ toString k) :: mangleDupes (n :: seen) rest

/-- pandas read_excel with an integer header, a usecols range and nrows:
the header row gives the column names, the following nrows rows (as far as
the sheet extends) give the data. -/
def readExcelObj (sh : Sheet) (headerRow first last nrows : Nat) :
    List String × List (List CellV) :=
  let grid := readGrid sh first last
  let headerCells := (grid.get? (headerRow - 1)).getD []
  let names := mangleDupes [] ((headerCells.enum).map (fun p => headerName p.1 p.2))
  (names, (grid.drop headerRow).take nrows)

/-! ## Row skipping and merged-row handling -/

/-- Python list(range(s, e + 1)). -/
def intRangeIncl (s e : Int) : List Int :=
  (List.range (e + 1 - s).toNat).map (fun k => s + k)

/-- The data-row index labels that the row-skipping helper drops: the
declared sheet rows offset by the last header row. -/
def skipDropIdxs (spec : SkipSpec) (lastHeaderRow : Int) : List Int :=
  match spec with
  | .one n => [n - lastHeaderRow - 1]
  | .rng s e => (intRangeIncl s e).map (fun i => i - (lastHeaderRow + 1))
  | .many l => l.map (fun i => i - (lastHeaderRow + 1))

/-- The row-skipping helper: translate the declared sheet rows to data-row
indices by the last-header offset and drop them; a missing index label makes
pandas drop raise KeyError.  The dict shape maps its inclusive range. -/
def skipRowsInDataframe (rows : List (List CellV)) (spec : SkipSpec)
    (lastHeaderRow : Int) : Except String (List (List CellV)) :=
  let dropIdx := skipDropIdxs spec lastHeaderRow
  if dropIdx.all (fun i => decide (0 ≤ i) && decide (i < (rows.length : Int))) then
    .ok (((rows.enum).filter (fun p => !dropIdx.contains (p.1 : Int))).map Prod.snd)
  else .error "KeyError"

/-- Python positional column indexing: a negative index counts from the right
edge, an index out of both ranges raises IndexError. -/
def pyIlocIdx (i : Int) (width : Nat) : Option Nat :=
  if 0 ≤ i ∧ i < (width : Int) then some i.toNat
  else if -(width : Int) ≤ i ∧ i < 0 then some ((width : Int) + i).toNat
  else none

/-- Forward fill down one column position of the data rows. -/
def colFfillDownGo (j : Nat) (carry : Option CellV) :
    List (List CellV) → List (List CellV)
  | [] => []
  | r :: rest =>
    match r.get? j with
    | some CellV.blank =>
      (match carry with
       | some v => r.set j v
       | none => r) :: colFfillDownGo j carry rest
    | some v => r :: colFfillDownGo j (some v) rest
    | none => r :: colFfillDownGo j carry rest

def colFfillDown (rows : List (List CellV)) (j : Nat) : List (List CellV) :=
  colFfillDownGo j none rows

/-- The merged-rows handler: each named column letter is mapped to a data
column index relative to the first column of the range and that positional
column is forward filled downward, with Python iloc semantics for negative
or out-of-bounds indices. -/
def handleMergedRows (df : DataFrame) (spec : MergedSpec) (range : String) :
    Except String DataFrame :=
  let cols := match spec with
    | .onecol s => [s]
    | .manycols l => l
  let idxs := cols.map (fun c => findDataColumnIndex c range)
  idxs.foldlM
    (fun (d : DataFrame) i =>
      match pyIlocIdx i d.cols.length with
      | some j => .ok (DataFrame.mk d.cols (colFfillDown d.rows j))
      | none => .error "IndexError")
    df

/-! ## Header reconstruction for multi-row headers -/

/-- Forward fill of optional values, left to right. -/
def ffillOptsGo (carry : Option String) : List (Option String) → List (Option String)
  | [] => []
  | none :: rest => carry :: ffillOptsGo carry rest
  | some s :: rest => some s :: ffillOptsGo (some s) rest

/-- The highest-header forward fill: names containing Unnamed become null,
nulls are forward filled, remaining nulls become empty strings. -/
def ffillHighestHeader (names : List String) : List String :=
  (ffillOptsGo none
      (names.map (fun s => if strContains s "Unnamed" then none else some s))).map
    (fun o => o.getD "")

/-- The in-place mutation performed by the highest-header fill on its input
series: Unnamed entries become null; the loop over intermediate rows reads
this mutated series as the first preceding header. -/
def mutatedInitialHeader (names : List String) : List CellV :=
  names.map (fun s => if strContains s "Unnamed" then CellV.blank else CellV.str s)

/-- fillna with the empty string followed by astype str. -/
def fillnaStr : CellV → String
  | .blank => ""
  | .str s => s
  | .num q => numToStr q

/-- The sequential loop over positions 1 and upward of an intermediate header
row: a null cell inherits the (already updated) value to its left when the
cell above is also null; a cell equal to the non-null cell above is nulled. -/
def intermediateFold (prev : CellV) : List CellV → List CellV → List CellV
  | [], _ => []
  | v :: rest, precs =>
    let pv := precs.headD CellV.blank
    let v2 := if v = CellV.blank then (if pv = CellV.blank then prev else v)
      else if pv ≠ CellV.blank ∧ v = pv then CellV.blank else v
    v2 :: intermediateFold v2 rest precs.tail

/-- Intermediate header row processing: the position-wise loop, then fillna
with empty strings and column-name sanitisation. -/
def ffillIntermediateHeaderRow (row preceding : List CellV) : List String :=
  let updated := match row with
    | [] => []
    | v0 :: rest => v0 :: intermediateFold v0 rest (preceding.drop 1)
  columnNameSanitiseAll (updated.map fillnaStr)

/-- Last header row processing: fillna, sanitise, then blank out entries that
equal the preceding header entry. -/
def processLastHeaderRow (row : List CellV) (preceding : List String) : List String :=
  (columnNameSanitiseAll (row.map fillnaStr)).zipWith
    (fun s p => if s = p then "" else s) preceding

/-- The separator pass: every non-empty fragment gets a leading underscore. -/
def addSeparators (l : List String) : List String :=
  l.map (fun s => if s = "" then s else "_" ++ s)

/-- The loop over intermediate header rows, each processed against the
preceding header: the mutated initial header first, then the raw previous
row. -/
def intermediateHeaders : List (List CellV) → List CellV → List (List String)
  | [], _ => []
  | r :: rest, preceding =>
    ffillIntermediateHeaderRow r preceding :: intermediateHeaders rest r

/-- Forward fill one data row left to right (the horizontal merged-cell
fill); a leading null stays null. -/
def rowFfillGo (carry : CellV) : List CellV → List CellV
  | [] => []
  | c :: rest =>
    if c = CellV.blank then carry :: rowFfillGo carry rest
    else c :: rowFfillGo c rest

def rowFfill (row : List CellV) : List CellV := rowFfillGo CellV.blank row

/-- Drop the in-table header rows, apply the merged headers and, when
requested, forward fill values across each row. -/
def buildCleanedDataframe (rowsAll : List (List CellV)) (hrit : Nat)
    (newHeaders : List String) (fwd : Bool) : DataFrame :=
  let body := rowsAll.drop hrit
  DataFrame.mk newHeaders (if fwd then body.map rowFfill else body)

/-- Is the list sorted (the sorted equality assert)? -/
def isSortedLe : List Nat → Bool
  | a :: b :: r => decide (a ≤ b) && isSortedLe (b :: r)
  | _ => true

/-- Are consecutive differences all one? -/
def diffsAllOne : List Nat → Bool
  | a :: b :: rest => decide (b = a + 1) && diffsAllOne (b :: rest)
  | _ => true

/-- A Python assert: AssertionError when the condition fails. -/
def assertE (b : Bool) : Except String Unit :=
  if b then .ok () else .error "AssertionError"

/-! ## read_table -/

/-- read_table: the single-header path reads the declared region and
sanitises the column names; the multi-header path reads the region as
objects, reconstructs the flat header from the header rows, forward fills
values when requested; both paths then apply row skipping and merged-row
handling.  Python exceptions (failed asserts, out-of-range indexing, pandas
KeyError) appear as errors. -/
def readTable (sh : Sheet) (t : TableConfig) : Except String DataFrame :=
  let first := rangeFirstCol t.columnRange
  let last := rangeLastCol t.columnRange
  match t.headerRows with
  | .single h => do
    let p := readExcelObj sh h first last (t.endRow - h)
    let names := columnNameSanitiseAll p.1
    let rows ← (match t.skipRows with
      | some sp =>
        if skipTruthy sp then skipRowsInDataframe p.2 sp (h : Int) else .ok p.2
      | none => .ok p.2)
    let df : DataFrame := DataFrame.mk names rows
    match t.columnsWithMergedRows with
    | some ms =>
      if mergedTruthy ms then handleMergedRows df ms t.columnRange else .ok df
    | none => .ok df
  | .multi hs => do
    match hs with
    | [] => .error "IndexError"
    | h0 :: _ => do
      let p := readExcelObj sh h0 first last (t.endRow - h0)
      let names := columnNameSanitiseAll p.1
      assertE (isSortedLe hs)
      assertE (decide (2 ≤ hs.length) && diffsAllOne hs)
      let hLast := hs.getLastD 0
      let hrit := hLast - h0
      let ffilledInit := ffillHighestHeader names
      let interms := intermediateHeaders (p.2.take (hrit - 1)) (mutatedInitialHeader names)
      let lastRow ← (match p.2.get? (hrit - 1) with
        | some r => Except.ok r
        | none => Except.error "IndexError")
      let prevForLast := match interms.getLast? with
        | some pr => pr
        | none => ffilledInit
      let lastProcessed := processLastHeaderRow lastRow prevForLast
      let filledHeaders := interms ++ [lastProcessed]
      let merged := (filledHeaders.map addSeparators).foldl
        (fun acc l => acc.zipWith (fun a b => a ++ b) l) ffilledInit
      let dfC := buildCleanedDataframe p.2 hrit merged t.forwardFillValues
      let rows ← (match t.skipRows with
        | some sp =>
          if skipTruthy sp then skipRowsInDataframe dfC.rows sp (hLast : Int)
          else .ok dfC.rows
        | none => .ok dfC.rows)
      let df : DataFrame := DataFrame.mk dfC.cols rows
      match t.columnsWithMergedRows with
      | some ms =>
        if mergedTruthy ms then handleMergedRows df ms t.columnRange else .ok df
      | none => .ok df

/-! ## The casting pass over a whole table -/

/-- Positional column extraction from the data rows. -/
def dfGetCol (rows : List (List CellV)) (j : Nat) : List CellV :=
  rows.map (fun r => (r.get? j).getD CellV.blank)

/-- Positional column assignment into the data rows. -/
def dfSetCol (rows : List (List CellV)) (j : Nat) (col : List CellV) :
    List (List CellV) :=
  rows.zipWith (fun r v => r.set j v) col

/-- The table-wide value casting and sanitisation: lone hyphens become null
across the whole table, then each column goes through the casting loop.  The
source iterates the object-dtype column names, which are unique when this is
reached (the duplicate check runs first); iterating every positional column
is the same function, since coercion of an already numeric column succeeds
and returns it unchanged. -/
def valuesCastingAndSanitisation (df : DataFrame) : DataFrame :=
  let rows0 := df.rows.map (fun r => r.map hyphenToNA)
  let rows1 := (List.range df.cols.length).foldl
    (fun rs j => dfSetCol rs j (castColumn (dfGetCol rs j))) rows0
  DataFrame.mk df.cols rows1

/-! ## The boundary-consistency checks -/

/-- Duplicate column names raise a table-config error; this check runs
unconditionally in get_table_from_config. -/
def checkColumnsUnique (data : DataFrame) (name : String) : Except String Unit :=
  if data.cols.length ≠ data.cols.dedup.length then
    .error ("There are duplicate column names in the table " ++ name ++ ".")
  else .ok ()

/-- The last-column check: it fires exactly when the name of the last column
contains Unnamed, the pandas marker for a blank header cell; an empty header
makes the Python negative indexing raise. -/
def checkLastColumnIsntEmpty (data : DataFrame) (name : String) : Except String Unit :=
  match data.cols.getLast? with
  | none => .error "IndexError"
  | some c =>
    if strContains c "Unnamed" then
      .error ("The last column of the table " ++ name ++ " is empty.")
    else .ok ()

/-- The first column of the data (selected by its unique name, hence by
position zero). -/
def firstColumnCells (data : DataFrame) : List CellV :=
  data.rows.map (fun r => (r.get? 0).getD CellV.blank)

/-- Null values in the first column indicate overrun into a following table. -/
def checkForOverRunIntoAnotherTable (data : DataFrame) (name : String) :
    Except String Unit :=
  match data.cols with
  | [] => .error "IndexError"
  | _ =>
    if (firstColumnCells data).any (fun v => v = CellV.blank) then
      .error ("The first column of the table " ++ name ++
        " contains na values indicating the table end row is incorrectly specified.")
    else .ok ()

def notesSubStrings : List String := ["Notes:", "Note:", "Source:", "Sources:"]

/-- Note-introducer substrings in the first column (after astype str)
indicate overrun into a notes block. -/
def checkForOverRunIntoNotes (data : DataFrame) (name : String) :
    Except String Unit :=
  match data.cols with
  | [] => .error "IndexError"
  | _ =>
    if notesSubStrings.any
        (fun sub => (firstColumnCells data).any (fun v => strContains (cellToPyStr v) sub)) then
      .error ("The first column of the table " ++ name ++ " contains a note sub string.")
    else .ok ()

/-- Is the openpyxl cell value neither None nor one of the blank-like
strings tested by the boundary checks? -/
def cellValueNonBlankWB : CellV → Bool
  | .blank => false
  | .str s => !(s = "" || s = " " || s = " ")
  | .num _ => true

/-- The cell one row below end_row in the second column of the range must be
blank. -/
def checkDataEndsWhereExpected (sh : Sheet) (endRow : Nat) (range : String)
    (name : String) : Except String Unit :=
  let secondCol := rangeFirstCol range + 1
  if cellValueNonBlankWB (getCell sh (endRow + 1) secondCol).v then
    .error ("There is data in the row after the defined table end for table " ++
      name ++ ".")
  else .ok ()

/-- The first header row of a locator. -/
def firstHeaderRowOf : HeaderRows → Nat
  | .single n => n
  | .multi l => l.headD 0

/-- The last header row of a locator. -/
def lastHeaderRowOf : HeaderRows → Nat
  | .single n => n
  | .multi l => l.getLastD 0

/-- The cell one row above the first header row in the second column of the
range must be blank; a first header row of one makes openpyxl reject the row
number zero. -/
def checkNoDataAboveFirstHeaderRow (sh : Sheet) (headerRows : HeaderRows)
    (range : String) (name : String) : Except String Unit :=
  let firstHeader := firstHeaderRowOf headerRows
  let secondCol := rangeFirstCol range + 1
  if firstHeader ≤ 1 then .error "ValueError"
  else if cellValueNonBlankWB (getCell sh (firstHeader - 1) secondCol).v then
    .error ("There is data or a header above the first header row for table " ++
      name ++ ".")
  else .ok ()

/-- The data cells of the single-column probe read used by the adjacent
column checks: rows startRow + 1 to endRow of the given sheet column. -/
def probeColumnData (sh : Sheet) (startRow endRow col : Nat) : List CellV :=
  (List.range (endRow - startRow)).map (fun i => (getCell sh (startRow + 1 + i) col).v)

/-- The column right of the range over the row span must be blank after
masking backticks, non-breaking spaces and empty strings. -/
def checkForMissedColumnOnRight (sh : Sheet) (startRow endRow : Nat)
    (range : String) (name : String) : Except String Unit :=
  let probe := probeColumnData sh startRow endRow (rangeLastCol range + 1)
  let cleaned := probe.map (fun v => match v with
    | .str s => if s = "`" || s = " " || s = "" then CellV.blank else CellV.str s
    | w => w)
  if cleaned.all (fun v => v = CellV.blank) then .ok ()
  else
    .error ("There is data in the column adjacent to the last column in the table " ++
      name ++ ".")

/-- The column left of the range over the row span must be blank, except when
its header cell is the structural placeholder or the range already starts at
column B; a range starting at column A makes openpyxl reject the column
number zero. -/
def checkForMissedColumnOnLeft (sh : Sheet) (startRow endRow : Nat)
    (range : String) (name : String) : Except String Unit :=
  let firstCol := rangeFirstCol range
  if firstCol ≤ 1 then .error "ValueError"
  else
    let probe := probeColumnData sh startRow endRow (firstCol - 1)
    let headerCellName := headerName 0 (getCell sh startRow (firstCol - 1)).v
    if probe.all (fun v => v = CellV.blank) then .ok ()
    else if strContains headerCellName "DO NOT DELETE THIS COLUMN" ||
        rangeFirstStr range = "B" then .ok ()
    else
      .error ("There is data in the column adjacent to the first column in the table " ++
        name ++ ".")

/-- Pre-flight: first header row and end_row within the populated rows. -/
def checkIfHeaderRowAndEndRowAreOnSheet (sh : Sheet) (t : TableConfig) :
    Except String Unit :=
  if firstHeaderRowOf t.headerRows > sheetMaxRow sh then
    .error ("The first header row for table " ++ t.name ++
      " is not within the excel sheet.")
  else if t.endRow > sheetMaxRow sh then
    .error ("The end_row for table " ++ t.name ++ " is not within the excel sheet.")
  else .ok ()

/-- Pre-flight: first and last columns of the range within the populated
columns. -/
def checkIfStartAndEndColumnAreOnSheet (sh : Sheet) (t : TableConfig) :
    Except String Unit :=
  if rangeFirstCol t.columnRange > sheetMaxCol sh then
    .error ("The first column for table " ++ t.name ++
      " is not within the excel sheet.")
  else if rangeLastCol t.columnRange > sheetMaxCol sh then
    .error ("The last column for table " ++ t.name ++
      " is not within the excel sheet.")
  else .ok ()

/-- The battery of boundary checks run after extraction when validation is
enabled, in source order. -/
def checkTable (sh : Sheet) (data : DataFrame) (t : TableConfig) :
    Except String Unit := do
  checkNoDataAboveFirstHeaderRow sh t.headerRows t.columnRange t.name
  checkDataEndsWhereExpected sh t.endRow t.columnRange t.name
  checkForMissedColumnOnRight sh (lastHeaderRowOf t.headerRows) t.endRow
    t.columnRange t.name
  checkForMissedColumnOnLeft sh (firstHeaderRowOf t.headerRows) t.endRow
    t.columnRange t.name
  checkLastColumnIsntEmpty data t.name
  checkForOverRunIntoAnotherTable data t.name
  checkForOverRunIntoNotes data t.name

/-! ## Percentage-format rescaling -/

/-- Is the sheet row one that the percentage postprocessor skips?  Only the
int and list shapes are recognised; the dict shape falls through. -/
def isSkippedRowPct (spec : Option SkipSpec) (r : Nat) : Bool :=
  match spec with
  | some sp =>
    if skipTruthy sp then
      match sp with
      | .many l => l.contains ((r : Int))
      | .one n => decide ((r : Int) = n)
      | .rng _ _ => false
    else false
  | none => false

/-- Is a cell numeric and percentage formatted? -/
def isPctCell (cell : Cell) : Bool :=
  (match cell.v with
   | .num _ => true
   | _ => false) && strContains cell.fmt "%"

/-- The walk down one column collecting data coordinates of percentage
cells: skipped rows advance the skip counter, percentage-formatted numeric
cells record their sheet row offset by the header and the skips seen so far,
together with the data column index. -/
def pctCellsGo (spec : Option SkipSpec) (minRow : Nat) (colIdx : Int) :
    List Cell → Nat → Nat → List (Int × Int)
  | [], _, _ => []
  | cell :: rest, i, skipped =>
    if isSkippedRowPct spec (minRow + i) then
      pctCellsGo spec minRow colIdx rest (i + 1) (skipped + 1)
    else if isPctCell cell then
      (((minRow : Int) + i) - minRow - skipped, colIdx) ::
        pctCellsGo spec minRow colIdx rest (i + 1) skipped
    else pctCellsGo spec minRow colIdx rest (i + 1) skipped

/-- The cells of one sheet column between two rows, as openpyxl iter_cols
yields them (empty cells where the sheet is not populated). -/
def sheetColCells (sh : Sheet) (c minRow maxRow : Nat) : List Cell :=
  (List.range (maxRow + 1 - minRow)).map (fun i => getCell sh (minRow + i) c)

/-- The decision for one column: the whole data column when every cell of
the span is a counted percentage cell, otherwise the individual flagged
cells. -/
inductive PctCol where
  | whole (c : Int)
  | cells (l : List (Int × Int))
deriving DecidableEq

/-- The flagged-cell walk of one sheet column of the declared range. -/
def pctPairsForCol (sh : Sheet) (t : TableConfig) (c : Nat) : List (Int × Int) :=
  pctCellsGo t.skipRows (lastHeaderRowOf t.headerRows + 1)
    ((c : Int) - (rangeFirstCol t.columnRange : Int))
    (sheetColCells sh c (lastHeaderRowOf t.headerRows + 1) t.endRow) 0 0

/-- The decision for one sheet column: a full-span count selects the whole
column (popping from an empty set raises KeyError in the degenerate
empty-span case), otherwise the flagged cells are kept. -/
def pctColDecision (sh : Sheet) (t : TableConfig) (c : Nat) : Except String PctCol :=
  let minRow := lastHeaderRowOf t.headerRows + 1
  let pcs := pctPairsForCol sh t c
  if decide ((pcs.length : Int) = (t.endRow : Int) - (minRow : Int) + 1) then
    match pcs with
    | [] => Except.error "KeyError"
    | p :: _ => Except.ok (PctCol.whole p.2)
  else Except.ok (PctCol.cells pcs)

/-- The loop appending one decision per column of the declared range. -/
def pctColumnsForAux (sh : Sheet) (t : TableConfig) : List Nat → Except String (List PctCol)
  | [] => .ok []
  | c :: rest => do
    let pc ← pctColDecision sh t c
    let rest2 ← pctColumnsForAux sh t rest
    .ok (pc :: rest2)

/-- The per-column percentage scan over the declared range. -/
def pctColumnsFor (sh : Sheet) (t : TableConfig) : Except String (List PctCol) :=
  let minCol := rangeFirstCol t.columnRange
  let maxCol := rangeLastCol t.columnRange
  pctColumnsForAux sh t ((List.range (maxCol + 1 - minCol)).map (fun k => minCol + k))

/-- Multiplication of a cell by 100, with the Python semantics of the
in-place scaling: numbers scale, nulls stay null, strings replicate. -/
def cellTimes100 : CellV → CellV
  | .num q => .num (q * 100)
  | .blank => .blank
  | .str s => .str (String.join (List.replicate 100 s))

/-- Scale a whole positional column of the data by 100. -/
def applyWholeCol (rows : List (List CellV)) (c : Int) (ncols : Nat) :
    Except String (List (List CellV)) :=
  match pyIlocIdx c ncols with
  | some j =>
    .ok (rows.map (fun r => r.set j (cellTimes100 ((r.get? j).getD CellV.blank))))
  | none => .error "IndexError"

/-- Scale one data cell, with positional indexing on both axes. -/
def applyCellAt (rows : List (List CellV)) (r c : Int) (ncols : Nat) :
    Except String (List (List CellV)) :=
  match pyIlocIdx r rows.length, pyIlocIdx c ncols with
  | some i, some j =>
    let row := (rows.get? i).getD []
    .ok (rows.set i (row.set j (cellTimes100 ((row.get? j).getD CellV.blank))))
  | _, _ => .error "IndexError"

/-- Application of one per-column decision to the data rows: an int scales
the whole positional column, a list scales each flagged cell. -/
def pctApplyStep (ncols : Nat) (rs : List (List CellV)) :
    PctCol → Except String (List (List CellV))
  | PctCol.whole c => applyWholeCol rs c ncols
  | PctCol.cells l =>
    l.foldlM (fun rs2 pr => applyCellAt rs2 pr.1 pr.2 ncols) rs

/-- The percentage postprocessor: scan every column of the declared range
for percentage-formatted cells and scale the extracted data accordingly. -/
def postprocessPercentageColumns (sh : Sheet) (t : TableConfig)
    (data : DataFrame) : Except String DataFrame := do
  let pcs ← pctColumnsFor sh t
  let rows ← pcs.foldlM (pctApplyStep data.cols.length) data.rows
  .ok (DataFrame.mk data.cols rows)

/-! ## get_table_from_config -/

/-- The table extraction entry point: optional pre-flight checks, the read,
the unconditional duplicate-column check, value casting and sanitisation,
percentage rescaling, and the optional boundary checks. -/
def getTableFromConfig (sh : Sheet) (t : TableConfig) (configChecks : Bool) :
    Except String DataFrame := do
  if configChecks then
    checkIfHeaderRowAndEndRowAreOnSheet sh t
    checkIfStartAndEndColumnAreOnSheet sh t
  let data ← readTable sh t
  checkColumnsUnique data t.name
  let data := valuesCastingAndSanitisation data
  let data ← postprocessPercentageColumns sh t data
  if configChecks then
    checkTable sh data t
  .ok data

/-! ## Reference definitions used to state theorems -/

/-- Positional dropping used to characterise row skipping: walking the list
with a running index, elements whose index lies in the bad list are removed. -/
def dropAtIdxs (bad : List Int) (k : Int) : List α → List α
  | [] => []
  | a :: rest =>
    if k ∈ bad then dropAtIdxs bad (k + 1) rest
    else a :: dropAtIdxs bad (k + 1) rest

/-- Definition following the claim wording for the last-column check: is the
final column of the assembled data entirely blank? -/
def lastColumnEntirelyBlank (data : DataFrame) : Bool :=
  (data.rows.map (fun r => (r.get? (data.cols.length - 1)).getD CellV.blank)).all
    (fun v => v = CellV.blank)

/-- The cell of a row list at a row and column position, blank when out of
range; used to state pointwise theorems. -/
def cellAtRows (rows : List (List CellV)) (i c : Nat) : CellV :=
  (((rows.get? i).getD []).get? c).getD CellV.blank

/-- The cell of a data frame at a row and column position, blank when out of
range. -/
def cellAt (data : DataFrame) (i c : Nat) : CellV :=
  cellAtRows data.rows i c

/-- Are the shapes of a skip declaration the ones the percentage
postprocessor recognises (no dict range)? -/
def skipShapeOK : Option SkipSpec → Prop
  | some (SkipSpec.rng _ _) => False
  | _ => True

/-- The sheet rows of the data body of a locator that survive the skip set
recognised by the percentage postprocessor. -/
def keptSheetRows (t : TableConfig) : List Nat :=
  let minRow := lastHeaderRowOf t.headerRows + 1
  ((List.range (t.endRow + 1 - minRow)).map (fun k => minRow + k)).filter
    (fun r => !isSkippedRowPct t.skipRows r)

/-! ## Concrete fixtures -/

def strCell (x : String) : Cell := plainCell (CellV.str x)

def blankCell : Cell := plainCell CellV.blank

/-- The three-row-header sheet of the spec example: header fragments
A blank B, blank X blank, 1 2 blank, and one body row. -/
def sheetMultiHeader : Sheet :=
  [[strCell "A", blankCell, strCell "B"],
   [blankCell, strCell "X", blankCell],
   [strCell "1", strCell "2", blankCell],
   [blankCell, blankCell, strCell "c"]]

def cfgMultiHeader : TableConfig :=
  { name := "t", sheetName := "S", headerRows := HeaderRows.multi [1, 2, 3],
    endRow := 4, columnRange := "A:C" }

def dfMultiHeader : DataFrame :=
  DataFrame.mk ["A", "A_X", "B"] [[CellV.blank, CellV.blank, CellV.str "c"]]

/-- A single-header sheet with a blank body cell whose left neighbour is
populated. -/
def sheetSingleHeader : Sheet :=
  [[strCell "H1", strCell "H2", strCell "H3"],
   [strCell "x", blankCell, strCell "y"]]

def cfgSingleHeader : TableConfig :=
  { name := "t", sheetName := "S", headerRows := HeaderRows.single 1,
    endRow := 2, columnRange := "A:C" }

/-- A workbook on which every boundary check passes for cfgClean. -/
def wbClean : Sheet :=
  [[],
   [blankCell, strCell "ID", strCell "Val"],
   [blankCell, strCell "a", strCell "x"],
   [blankCell, strCell "b", strCell "y"]]

def cfgClean : TableConfig :=
  { name := "t", sheetName := "S", headerRows := HeaderRows.single 2,
    endRow := 4, columnRange := "B:C" }

def dfClean : DataFrame :=
  DataFrame.mk ["ID", "Val"]
    [[CellV.str "a", CellV.str "x"], [CellV.str "b", CellV.str "y"]]

/-- A workbook whose header row repeats a name, so the reconstructed header
has duplicates after the pandas suffix is sanitised away. -/
def wbDup : Sheet :=
  [[],
   [blankCell, strCell "A", strCell "A"],
   [blankCell, strCell "a", strCell "1"],
   [blankCell, strCell "b", strCell "2"]]

def cfgDup : TableConfig :=
  { name := "t", sheetName := "S", headerRows := HeaderRows.single 2,
    endRow := 4, columnRange := "B:C" }

/-- A table whose last column is entirely blank but carries a real name. -/
def dfBlankLastCol : DataFrame :=
  DataFrame.mk ["ID", "Total"]
    [[CellV.str "a", CellV.blank], [CellV.str "b", CellV.blank]]

/-- A two-column table for the merged-rows indexing theorems. -/
def dfTwoCols : DataFrame :=
  DataFrame.mk ["c1", "c2"]
    [[CellV.str "p", CellV.str "q"], [CellV.blank, CellV.blank]]

/-- Already-clean values: outputs of the sanitisation pipeline on the
fixtures of the spec. -/
def cleanFixtures : List String :=
  ["50.0", "35.5", "42.0", "999.9", "1234567", "45.6914",
   "2024-25 data for year", "Bayswater", "Steam Sub Critical", "a b"]

/-- A nineteen-row sheet matching the row-skip example: header on row 7,
data on rows 8 to 19 over columns B to D. -/
def sheet19 : Sheet :=
  (List.range 19).map (fun r =>
    if r = 6 then [blankCell, strCell "Generator type", strCell "A", strCell "B"]
    else [blankCell, strCell ("g" ++ toString r), strCell "x", strCell "y"])

def cfg19 : TableConfig :=
  { name := "t", sheetName := "S", headerRows := HeaderRows.single 7,
    endRow := 19, columnRange := "B:D",
    skipRows := some (SkipSpec.many [8, 9, 19]) }

def df19 : DataFrame := (readTable sheet19 cfg19).toOption.getD (DataFrame.mk [] [])

/-- A sheet with one fully percentage-formatted column span and one mixed
column span with a skipped row, for the rescaling theorems. -/
def wbPct : Sheet :=
  [[],
   [blankCell, strCell "ID", strCell "Pct"],
   [blankCell, strCell "a", Cell.mk (CellV.num (1/2)) "0.0%"],
   [blankCell, strCell "skipme", Cell.mk (CellV.num (9/10)) "0.0%"],
   [blankCell, strCell "b", Cell.mk (CellV.num 7) "General"],
   [blankCell, strCell "c", Cell.mk (CellV.num (1/4)) "0.0%"]]

def cfgPct : TableConfig :=
  { name := "t", sheetName := "S", headerRows := HeaderRows.single 2,
    endRow := 6, columnRange := "B:C", skipRows := some (SkipSpec.one 4) }

/-- A data frame of the extracted shape for the percentage sheet: two
columns and the three body rows surviving the skipped row. -/
def dfPct : DataFrame :=
  DataFrame.mk ["ID", "Pct"]
    [[CellV.str "a", CellV.num 0],
     [CellV.str "b", CellV.num 7],
     [CellV.str "c", CellV.num 0]]

/-! ## Helper lemmas -/

theorem exceptBind_ok {α β : Type} (a : Except String α) (f : α → Except String β)
    (b : β) : (a >>= f) = .ok b ↔ ∃ x, a = .ok x ∧ f x = .ok b := by
  cases a <;> simp [Bind.bind, Except.bind]

theorem enumFrom_filter_eq_dropAtIdxs (bad : List Int) :
    ∀ (rows : List (List CellV)) (k : Nat),
      (((List.enumFrom k rows).filter
          (fun p => !bad.contains ((p.1 : Int)))).map Prod.snd)
        = dropAtIdxs bad (k : Int) rows := by
  intro rows
  induction rows with
  | nil => intro k; rfl
  | cons a rest ih =>
    intro k
    show (((k, a) :: List.enumFrom (k + 1) rest).filter _).map Prod.snd = _
    have hcast : ((k + 1 : Nat) : Int) = (k : Int) + 1 := by push_cast; ring
    by_cases hk : (k : Int) ∈ bad
    · have hc : bad.contains ((k : Int)) = true := List.elem_eq_true_of_mem hk
      rw [List.filter_cons]
      have hcond : (!bad.contains (((k, a).1 : Int))) = false := by
        simp only [hc, Bool.not_true]
      rw [hcond, if_neg (by decide)]
      rw [ih (k + 1), hcast]
      conv_rhs => rw [dropAtIdxs]
      rw [if_pos hk]
    · have hc : bad.contains ((k : Int)) = false := by
        cases h2 : bad.contains ((k : Int)) with
        | false => rfl
        | true => exact absurd (List.mem_of_elem_eq_true h2) hk
      rw [List.filter_cons]
      have hcond : (!bad.contains (((k, a).1 : Int))) = true := by
        simp only [hc, Bool.not_false]
      rw [hcond, if_pos rfl, List.map_cons]
      rw [ih (k + 1), hcast]
      conv_rhs => rw [dropAtIdxs]
      rw [if_neg hk]

theorem dropAtIdxs_congr {α : Type} (bad1 bad2 : List Int)
    (rows : List α) :
    ∀ (k : Int), (∀ j : Int, k ≤ j → ((j ∈ bad1) ↔ (j ∈ bad2))) →
      dropAtIdxs bad1 k rows = dropAtIdxs bad2 k rows := by
  induction rows with
  | nil => intro k hk; rfl
  | cons a rest ih =>
    intro k hk
    unfold dropAtIdxs
    have hnext : ∀ j : Int, k + 1 ≤ j → ((j ∈ bad1) ↔ (j ∈ bad2)) := by
      intro j hj
      exact hk j (by omega)
    by_cases hmem : k ∈ bad1
    · rw [if_pos hmem, if_pos ((hk k (le_refl k)).mp hmem), ih (k + 1) hnext]
    · rw [if_neg hmem, if_neg (fun hx => hmem ((hk k (le_refl k)).mpr hx)),
        ih (k + 1) hnext]

theorem nodup_bounded_length (bad : List Int) (k : Int) (n : Nat)
    (hnd : bad.Nodup) (hb : ∀ b ∈ bad, k ≤ b ∧ b < k + n) :
    bad.length ≤ n := by
  classical
  have h1 : bad.toFinset ⊆ Finset.Ico k (k + n) := by
    intro b hbmem
    rw [List.mem_toFinset] at hbmem
    rcases hb b hbmem with ⟨h2, h3⟩
    exact Finset.mem_Ico.mpr ⟨h2, h3⟩
  have h2 := Finset.card_le_card h1
  have h3 : bad.toFinset.card = bad.length := by
    rw [List.card_toFinset, List.Nodup.dedup hnd]
  have h4 : (Finset.Ico k (k + (n : Int))).card = n := by
    rw [Int.card_Ico]
    simp
  omega

theorem dropAtIdxs_length {α : Type} (rows : List α) :
    ∀ (bad : List Int) (k : Int), bad.Nodup →
      (∀ b ∈ bad, k ≤ b ∧ b < k + rows.length) →
      (dropAtIdxs bad k rows).length = rows.length - bad.length := by
  induction rows with
  | nil =>
    intro bad k hnd hb
    match bad with
    | [] => rfl
    | b :: bs =>
      rcases hb b (List.mem_cons_self b bs) with ⟨h1, h2⟩
      simp at h2
      omega
  | cons a rest ih =>
    intro bad k hnd hb
    unfold dropAtIdxs
    by_cases hmem : k ∈ bad
    · rw [if_pos hmem]
      have hcong : dropAtIdxs bad (k + 1) rest =
          dropAtIdxs (bad.erase k) (k + 1) rest := by
        apply dropAtIdxs_congr
        intro j hj
        rw [List.Nodup.mem_erase_iff hnd]
        exact Iff.intro (fun hjb => ⟨by omega, hjb⟩) (fun hjb => hjb.2)
      have hnd2 : (bad.erase k).Nodup := List.Nodup.erase k hnd
      have hb2 : ∀ b ∈ bad.erase k, k + 1 ≤ b ∧ b < (k + 1) + rest.length := by
        intro b hbmem
        rw [List.Nodup.mem_erase_iff hnd] at hbmem
        rcases hb b hbmem.2 with ⟨h1, h2⟩
        have hbne : b ≠ k := hbmem.1
        simp only [List.length_cons] at h2
        refine ⟨by omega, ?_⟩
        push_cast at h2 ⊢
        omega
      rw [hcong, ih (bad.erase k) (k + 1) hnd2 hb2]
      have hlen : (bad.erase k).length = bad.length - 1 :=
        List.length_erase_of_mem hmem
      have hpos : 1 ≤ bad.length := List.length_pos.mpr
        (fun he => by rw [he] at hmem; exact absurd hmem (List.not_mem_nil k))
      simp only [List.length_cons]
      omega
    · rw [if_neg hmem]
      have hb2 : ∀ b ∈ bad, k + 1 ≤ b ∧ b < (k + 1) + rest.length := by
        intro b hbmem
        rcases hb b hbmem with ⟨h1, h2⟩
        have hbne : b ≠ k := fun he => by rw [he] at hbmem; exact hmem hbmem
        simp only [List.length_cons] at h2
        refine ⟨by omega, ?_⟩
        push_cast at h2 ⊢
        omega
      have hbound : bad.length ≤ rest.length :=
        nodup_bounded_length bad (k + 1) rest.length hnd hb2
      rw [List.length_cons, List.length_cons, ih bad (k + 1) hnd hb2]
      omega

theorem skipRowsInDataframe_ok (rows : List (List CellV)) (spec : SkipSpec)
    (lastH : Int) (out : List (List CellV))
    (h : skipRowsInDataframe rows spec lastH = .ok out) :
    (∀ i ∈ skipDropIdxs spec lastH, 0 ≤ i ∧ i < (rows.length : Int)) ∧
    out = dropAtIdxs (skipDropIdxs spec lastH) 0 rows := by
  unfold skipRowsInDataframe at h
  by_cases hall : (skipDropIdxs spec lastH).all
      (fun i => decide (0 ≤ i) && decide (i < (rows.length : Int))) = true
  · rw [if_pos hall] at h
    constructor
    · intro i hi
      have h2 := List.all_eq_true.mp hall i hi
      simp only [Bool.and_eq_true, decide_eq_true_eq] at h2
      exact h2
    · have h3 := Except.ok.inj h
      rw [← h3]
      have h4 := enumFrom_filter_eq_dropAtIdxs (skipDropIdxs spec lastH) rows 0
      exact h4
  · rw [if_neg hall] at h
    exact absurd h (by simp)

theorem assertE_ok (b : Bool) (u : Unit) (h : assertE b = Except.ok u) :
    b = true := by
  cases b with
  | true => rfl
  | false => exact absurd h (by simp [assertE])

theorem isSortedLe_head_le : ∀ (l : List Nat) (a : Nat),
    isSortedLe (a :: l) = true → a ≤ (a :: l).getLastD 0 := by
  intro l
  induction l with
  | nil => intro a hsort; exact le_refl a
  | cons b l ih =>
    intro a hsort
    unfold isSortedLe at hsort
    rw [Bool.and_eq_true, decide_eq_true_eq] at hsort
    have h2 := ih b hsort.2
    have h3 : (a :: b :: l).getLastD 0 = (b :: l).getLastD 0 := by
      rw [List.getLastD_eq_getLast?, List.getLastD_eq_getLast?,
        List.getLast?_cons_cons]
    omega

theorem buildCleanedDataframe_rows_length (rowsAll : List (List CellV))
    (hrit : Nat) (hdr : List String) (fwd : Bool) :
    (buildCleanedDataframe rowsAll hrit hdr fwd).rows.length =
      rowsAll.length - hrit := by
  unfold buildCleanedDataframe
  cases fwd with
  | true => simp
  | false => simp

theorem readExcelObj_rows_length (sh : Sheet) (hr first last nrows : Nat) :
    (readExcelObj sh hr first last nrows).2.length =
      min nrows (sh.length - hr) := by
  unfold readExcelObj readGrid
  simp only [List.length_take, List.length_drop, List.length_map]

theorem skipRows_many_ok_length (rows : List (List CellV)) (skips : List Int)
    (L : Int) (out : List (List CellV)) (hnd : skips.Nodup)
    (h : skipRowsInDataframe rows (SkipSpec.many skips) L = Except.ok out) :
    out.length = rows.length - skips.length := by
  have hchar := skipRowsInDataframe_ok _ _ _ _ h
  have hdrop : skipDropIdxs (SkipSpec.many skips) L =
      skips.map (fun i => i - (L + 1)) := rfl
  rw [hdrop] at hchar
  have hinj : Function.Injective (fun i : Int => i - (L + 1)) := by
    intro a b hab
    simp only at hab
    omega
  have hndmap : (skips.map (fun i => i - (L + 1))).Nodup :=
    List.Nodup.map hinj hnd
  have hbnd : ∀ b ∈ skips.map (fun i => i - (L + 1)),
      0 ≤ b ∧ b < 0 + (rows.length : Int) := by
    intro b hb
    rcases hchar.1 b hb with ⟨hb1, hb2⟩
    exact ⟨hb1, by omega⟩
  rw [hchar.2, dropAtIdxs_length _ _ 0 hndmap hbnd, List.length_map]

/-! ## C1: header reconstruction of the three-row example -/

/-- C1, counterexample: on the spec fixture with header fragments
row1 = A blank B, row2 = blank X blank, row3 = 1 2 blank, read_table does
not produce the header A_1, A_X_2, B claimed by the spec: the column-name
sanitiser removes the digit-only fragments as trailing footnotes. -/
theorem c1_counterexample :
    (readTable sheetMultiHeader cfgMultiHeader).map DataFrame.cols ≠
      Except.ok ["A_1", "A_X_2", "B"] := by
  intro h
  have h2 : (Except.ok ["A", "A_X", "B"] : Except String (List String)) =
      Except.ok ["A_1", "A_X_2", "B"] :=
    (rfl : (readTable sheetMultiHeader cfgMultiHeader).map DataFrame.cols =
      Except.ok ["A", "A_X", "B"]).symm.trans h
  injection h2 with h3
  exact absurd h3 (by decide)

/-- C1, amended: on that fixture the reconstructed flat header is
A, A_X, B: the top row is forward filled, repeated fragments are
suppressed, non-blank fragments are joined with an underscore, and the
column-name sanitisation deletes the digit-only fragments of the last
header row (one lone digit is a trailing footnote with no preceding
character). -/
theorem c1_amended_theorem :
    (readTable sheetMultiHeader cfgMultiHeader).map DataFrame.cols =
      Except.ok ["A", "A_X", "B"] := rfl

/-! ## C6: the three skip_rows shapes -/

/-- C6, counterexample: the pydantic field type of skip_rows rejects the
contiguous start and end range shape, so no locator with that shape can be
constructed. -/
theorem c6_counterexample :
    validateSkipRowsField (some (SkipSpec.rng 8 10)) =
      Except.error "ValidationError" := rfl

/-! ## C8: idempotence of the value-sanitisation pipeline -/

/-- C8, counterexample: the double-whitespace collapse replaces
non-overlapping pairs only, so a run of three spaces shrinks to two on the
first pass and to one on the second: the pipeline is not idempotent on its
own output. -/
theorem c8_counterexample :
    valueSanitiseCell (valueSanitiseCell (CellV.str "a   b")) ≠
      valueSanitiseCell (CellV.str "a   b") := by decide

/-- C8, amended: a second application of the pipeline is the identity on
already-clean texts without residual whitespace runs, in particular on the
clean fixture outputs of the spec. -/
theorem c8_amended_theorem :
    (cleanFixtures.all (fun s =>
      valueSanitiseCell (valueSanitiseCell (CellV.str s)) ==
        valueSanitiseCell (CellV.str s))) = true := by decide

/-! ## C9: the last-column check -/

/-- C9, counterexample: a table whose final column is entirely blank but
carries a real header name passes the check, so the error is not raised when
the final column of the assembled data is entirely blank. -/
theorem c9_counterexample :
    lastColumnEntirelyBlank dfBlankLastCol = true ∧
    checkLastColumnIsntEmpty dfBlankLastCol "t" = Except.ok () :=
  ⟨rfl, rfl⟩

/-- C9, amended: with a nonempty header, the check raises exactly when the
name of the last column contains Unnamed, the pandas marker left by a blank
header cell; the blankness of the column data is never inspected. -/
theorem c9_amended_theorem :
    ∀ (data : DataFrame) (name : String), data.cols ≠ [] →
      (checkLastColumnIsntEmpty data name = Except.ok () ↔
        strContains (data.cols.getLastD "") "Unnamed" = false) := by
  intro data name hne
  unfold checkLastColumnIsntEmpty
  match hl : data.cols.getLast? with
  | none =>
    rw [List.getLast?_eq_none_iff] at hl
    exact absurd hl hne
  | some c =>
    have hc : data.cols.getLastD "" = c := by
      rw [List.getLastD_eq_getLast?, hl]
      rfl
    rw [hc]
    cases hcc : strContains c "Unnamed" <;> simp [hcc]

/-- C9, witness for the amended theorem at a concrete table. -/
theorem c9_amended_witness :
    checkLastColumnIsntEmpty dfBlankLastCol "t" = Except.ok () ↔
      strContains (dfBlankLastCol.cols.getLastD "") "Unnamed" = false :=
  c9_amended_theorem dfBlankLastCol "t" (by decide)

/-! ## C10: merged-rows column letters outside the range -/

/-- C10, counterexample: a letter far left of the range gives a negative
index whose magnitude exceeds the table width, and the handler raises an
IndexError rather than no error. -/
theorem c10_counterexample :
    findDataColumnIndex "A" "E:F" < 0 ∧
    handleMergedRows dfTwoCols (MergedSpec.onecol "A") "E:F" =
      Except.error "IndexError" :=
  ⟨by decide, rfl⟩

/-- C10, amended: when the negative index is within the table width, the
handler silently forward fills the column at that negative position counted
from the right edge; when its magnitude exceeds the width it raises an
IndexError. -/
theorem c10_amended_theorem :
    ∀ (df : DataFrame) (letter range : String),
      findDataColumnIndex letter range < 0 →
      -(df.cols.length : Int) ≤ findDataColumnIndex letter range →
      handleMergedRows df (MergedSpec.onecol letter) range =
        Except.ok (DataFrame.mk df.cols
          (colFfillDown df.rows
            (((df.cols.length : Int) + findDataColumnIndex letter range).toNat))) := by
  intro df letter range hneg hge
  unfold handleMergedRows
  simp only [List.map, List.foldlM]
  rw [pyIlocIdx, if_neg (by omega), if_pos ⟨hge, hneg⟩]
  rfl

/-- C10, witness: one column left of a two-column table wraps to the first
column, which is forward filled downward. -/
theorem c10_amended_witness :
    handleMergedRows dfTwoCols (MergedSpec.onecol "C") "E:F" =
      Except.ok (DataFrame.mk ["c1", "c2"]
        [[CellV.str "p", CellV.str "q"], [CellV.str "p", CellV.blank]]) :=
  (c10_amended_theorem dfTwoCols "C" "E:F" (by decide) (by decide)).trans rfl

/-- C6, amended: the single-row and list shapes pass field validation and
their rows are dropped by the helper; the helper also implements the range
shape correctly, but field validation rejects it, so no locator can carry
it. -/
theorem c6_amended_theorem :
    (∀ n : Int, validateSkipRowsField (some (SkipSpec.one n)) =
      Except.ok (some (SkipSpec.one n))) ∧
    (∀ l : List Int, validateSkipRowsField (some (SkipSpec.many l)) =
      Except.ok (some (SkipSpec.many l))) ∧
    (∀ s e : Int, validateSkipRowsField (some (SkipSpec.rng s e)) =
      Except.error "ValidationError") ∧
    (∀ (rows out : List (List CellV)) (spec : SkipSpec) (lastH : Int),
      skipRowsInDataframe rows spec lastH = Except.ok out →
      out = dropAtIdxs (skipDropIdxs spec lastH) 0 rows) := by
  refine ⟨fun n => rfl, fun l => rfl, fun s e => rfl, ?_⟩
  intro rows out spec lastH h
  exact (skipRowsInDataframe_ok _ _ _ _ h).2

/-- C6, witness: the helper drops the rows of a range shape from a
three-row body. -/
theorem c6_amended_witness :
    ([[CellV.str "r1"]] : List (List CellV)) =
      dropAtIdxs (skipDropIdxs (SkipSpec.rng 9 10) 7) 0
        [[CellV.str "r1"], [CellV.str "r2"], [CellV.str "r3"]] :=
  c6_amended_theorem.2.2.2 [[CellV.str "r1"], [CellV.str "r2"], [CellV.str "r3"]]
    [[CellV.str "r1"]] (SkipSpec.rng 9 10) 7 rfl

/-! ## C5: row counts under skip_rows -/

/-- C5: with a validly declared list of skip rows, the extracted table has
exactly end_row minus the last header row minus the number of skipped rows
many rows, on both the single-header and the multi-header paths; on the
single-header path the surviving rows are exactly the read body rows whose
offset data index is not dropped, so no value of a skipped sheet row
appears. -/
theorem c5_theorem :
    (∀ (sh : Sheet) (t : TableConfig) (h : Nat) (skips : List Int)
        (d : DataFrame),
      t.headerRows = HeaderRows.single h →
      t.skipRows = some (SkipSpec.many skips) →
      t.columnsWithMergedRows = none →
      skips ≠ [] → skips.Nodup →
      t.endRow ≤ sh.length → h ≤ t.endRow →
      readTable sh t = Except.ok d →
      d.rows.length = t.endRow - h - skips.length ∧
      d.rows = dropAtIdxs (skips.map (fun i => i - ((h : Int) + 1))) 0
        (readExcelObj sh h (rangeFirstCol t.columnRange)
          (rangeLastCol t.columnRange) (t.endRow - h)).2) ∧
    (∀ (sh : Sheet) (t : TableConfig) (h0 : Nat) (hs : List Nat)
        (skips : List Int) (d : DataFrame),
      t.headerRows = HeaderRows.multi (h0 :: hs) →
      t.skipRows = some (SkipSpec.many skips) →
      t.columnsWithMergedRows = none →
      skips ≠ [] → skips.Nodup →
      t.endRow ≤ sh.length →
      lastHeaderRowOf t.headerRows ≤ t.endRow →
      readTable sh t = Except.ok d →
      d.rows.length = t.endRow - lastHeaderRowOf t.headerRows - skips.length) := by
  constructor
  · intro sh t h skips d ht1 ht2 ht3 hne hnd hsh hhe hrd
    unfold readTable at hrd
    simp only [ht1, ht2, ht3] at hrd
    have hemp : skips.isEmpty = false := by
      cases skips with
      | nil => exact absurd rfl hne
      | cons a l => rfl
    simp only [skipTruthy, hemp, Bool.not_false] at hrd
    rw [if_pos trivial] at hrd
    rw [exceptBind_ok] at hrd
    rcases hrd with ⟨rows0, hskip, hok⟩
    have hd : d = DataFrame.mk (columnNameSanitiseAll
        (readExcelObj sh h (rangeFirstCol t.columnRange)
          (rangeLastCol t.columnRange) (t.endRow - h)).1) rows0 :=
      (Except.ok.inj hok).symm
    have hchar := skipRowsInDataframe_ok _ _ _ _ hskip
    have hlen0 := skipRows_many_ok_length _ _ _ _ hnd hskip
    rw [readExcelObj_rows_length] at hlen0
    constructor
    · rw [hd]
      show rows0.length = _
      omega
    · rw [hd]
      show rows0 = _
      exact hchar.2
  · intro sh t h0 hs skips d ht1 ht2 ht3 hne hnd hsh hhe hrd
    unfold readTable at hrd
    simp only [ht1, ht2, ht3] at hrd
    have hemp : skips.isEmpty = false := by
      cases skips with
      | nil => exact absurd rfl hne
      | cons a l => rfl
    simp only [skipTruthy, hemp, Bool.not_false] at hrd
    rw [exceptBind_ok] at hrd
    rcases hrd with ⟨u1, ha1, hrd⟩
    rw [exceptBind_ok] at hrd
    rcases hrd with ⟨u2, ha2, hrd⟩
    rw [exceptBind_ok] at hrd
    rcases hrd with ⟨lastRow, hlr, hrd⟩
    rw [if_pos trivial, exceptBind_ok] at hrd
    rcases hrd with ⟨rows0, hskip, hok⟩
    have hd : d.rows = rows0 := by
      have h5 := (Except.ok.inj hok).symm
      rw [h5]
    have hsorted := assertE_ok _ _ ha1
    have hL : lastHeaderRowOf t.headerRows = (h0 :: hs).getLastD 0 := by
      rw [ht1]
      rfl
    have hh0L : h0 ≤ (h0 :: hs).getLastD 0 := isSortedLe_head_le hs h0 hsorted
    have hLe : (h0 :: hs).getLastD 0 ≤ t.endRow := by
      rw [hL] at hhe
      exact hhe
    have hlen0 := skipRows_many_ok_length _ _ _ _ hnd hskip
    rw [buildCleanedDataframe_rows_length, readExcelObj_rows_length] at hlen0
    rw [hd, hlen0, hL]
    omega

/-- C5, witness: the spec instance with end_row 19, a single header row 7 and
skip rows 8, 9 and 19 yields exactly nine rows. -/
theorem c5_witness : df19.rows.length = 9 :=
  (c5_theorem.1 sheet19 cfg19 7 [8, 9, 19] df19 rfl rfl rfl (by decide)
    (by decide) (by decide) (by decide) rfl).1

/-! ## C2: disabling the checks -/

/-- C2, counterexample: with config checks disabled, extracting a table whose
reconstructed header has duplicate names still raises the duplicate-column
error, because that check runs unconditionally. -/
theorem c2_counterexample :
    getTableFromConfig wbDup cfgDup false =
      Except.error "There are duplicate column names in the table t." := rfl

/-- C2, amended: disabling the checks never changes the extracted data; when
the run with checks enabled succeeds, the run with checks disabled returns
the same table.  The boundary checks are skipped, but the duplicate-column
check always runs and can still raise. -/
theorem c2_amended_theorem :
    ∀ (sh : Sheet) (t : TableConfig) (d : DataFrame),
      getTableFromConfig sh t true = Except.ok d →
      getTableFromConfig sh t false = Except.ok d := by
  intro sh t d h
  unfold getTableFromConfig at h ⊢
  simp only [reduceIte] at h
  rw [exceptBind_ok] at h
  rcases h with ⟨u1, hpre1, h⟩
  rw [exceptBind_ok] at h
  rcases h with ⟨u2, hpre2, h⟩
  rw [exceptBind_ok] at h
  rcases h with ⟨data0, hread, h⟩
  rw [exceptBind_ok] at h
  rcases h with ⟨u3, hcols, h⟩
  rw [exceptBind_ok] at h
  rcases h with ⟨data1, hpost, h⟩
  rw [exceptBind_ok] at h
  rcases h with ⟨u4, hct, h⟩
  simp only [if_neg Bool.false_ne_true, pure_bind]
  rw [exceptBind_ok]
  refine ⟨data0, hread, ?_⟩
  rw [exceptBind_ok]
  refine ⟨u3, hcols, ?_⟩
  rw [exceptBind_ok]
  exact ⟨data1, hpost, h⟩

/-- C2, witness: on a clean workbook the checked run succeeds, so the
unchecked run returns the same table. -/
theorem c2_amended_witness :
    getTableFromConfig wbClean cfgClean false = Except.ok dfClean :=
  c2_amended_theorem wbClean cfgClean dfClean (by rfl)

/-! ## C3: forward fill of blank body cells -/

theorem rowFfillGo_blank : ∀ (l : List CellV) (carry : CellV) (i : Nat),
    (rowFfillGo carry l).get? i = some CellV.blank →
    carry = CellV.blank ∧
      ∀ j ≤ i, (rowFfillGo carry l).get? j = some CellV.blank := by
  intro l
  induction l with
  | nil =>
    intro carry i h
    simp [rowFfillGo] at h
  | cons c rest ih =>
    intro carry i h
    unfold rowFfillGo at h ⊢
    by_cases hc : c = CellV.blank
    · rw [if_pos hc] at h ⊢
      cases i with
      | zero =>
        simp only [List.get?] at h
        have hcar : carry = CellV.blank := Option.some.inj h
        refine ⟨hcar, ?_⟩
        intro j hj
        have hj0 : j = 0 := by omega
        rw [hj0]
        simp only [List.get?, hcar]
      | succ i =>
        simp only [List.get?] at h
        rcases ih carry i h with ⟨hcar, hall⟩
        refine ⟨hcar, ?_⟩
        intro j hj
        cases j with
        | zero => simp only [List.get?, hcar]
        | succ j =>
          simp only [List.get?]
          exact hall j (by omega)
    · rw [if_neg hc] at h ⊢
      cases i with
      | zero =>
        simp only [List.get?] at h
        exact absurd (Option.some.inj h) hc
      | succ i =>
        simp only [List.get?] at h
        rcases ih c i h with ⟨hcar, hall⟩
        exact absurd hcar hc

/-- C3, counterexample: on the single-header path the blank body cell stays
blank even though forward_fill_values is true, so horizontal filling does not
happen for single-header tables. -/
theorem c3_counterexample :
    cfgSingleHeader.forwardFillValues = true ∧
    (readTable sheetSingleHeader cfgSingleHeader).map DataFrame.rows =
      Except.ok [[CellV.str "x", CellV.blank, CellV.str "y"]] ∧
    CellV.blank ≠ CellV.str "x" :=
  ⟨rfl, rfl, by decide⟩

/-- C3, amended: horizontal forward fill happens only on the multi-header
path: there, with forward_fill_values true, a blank can survive in a body
row only when everything to its left is blank; on the single-header path the
body rows are returned exactly as read. -/
theorem c3_amended_theorem :
    (∀ (sh : Sheet) (t : TableConfig) (hs : List Nat) (d : DataFrame),
      t.headerRows = HeaderRows.multi hs →
      t.forwardFillValues = true →
      t.skipRows = none →
      t.columnsWithMergedRows = none →
      readTable sh t = Except.ok d →
      ∀ row ∈ d.rows, ∀ i, row.get? i = some CellV.blank →
        ∀ j ≤ i, row.get? j = some CellV.blank) ∧
    (∀ (sh : Sheet) (t : TableConfig) (h : Nat) (d : DataFrame),
      t.headerRows = HeaderRows.single h →
      t.skipRows = none →
      t.columnsWithMergedRows = none →
      readTable sh t = Except.ok d →
      d.rows = (readExcelObj sh h (rangeFirstCol t.columnRange)
        (rangeLastCol t.columnRange) (t.endRow - h)).2) := by
  constructor
  · intro sh t hs d ht1 ht4 ht2 ht3 hrd
    cases hs with
    | nil =>
      unfold readTable at hrd
      simp only [ht1] at hrd
      exact absurd hrd (by simp)
    | cons h0 hs =>
      unfold readTable at hrd
      simp only [ht1, ht2, ht3, ht4] at hrd
      rw [exceptBind_ok] at hrd
      rcases hrd with ⟨u1, ha1, hrd⟩
      rw [exceptBind_ok] at hrd
      rcases hrd with ⟨u2, ha2, hrd⟩
      rw [exceptBind_ok] at hrd
      rcases hrd with ⟨lastRow, hlr, hrd⟩
      rw [exceptBind_ok] at hrd
      rcases hrd with ⟨rows0, hrows, hok⟩
      have hrows0 : Except.ok _ = Except.ok rows0 := hrows
      have hd : d.rows = rows0 := by
        have h5 := (Except.ok.inj hok).symm
        rw [h5]
      have hbody : rows0 = ((readExcelObj sh h0 (rangeFirstCol t.columnRange)
          (rangeLastCol t.columnRange) (t.endRow - h0)).2.drop
            ((h0 :: hs).getLastD 0 - h0)).map rowFfill := by
        have h6 := (Except.ok.inj hrows0)
        rw [← h6]
        rfl
      intro row hrow i hblank j hj
      rw [hd, hbody] at hrow
      rcases List.mem_map.mp hrow with ⟨r, hrmem, hrw⟩
      rw [← hrw] at hblank ⊢
      exact (rowFfillGo_blank r CellV.blank i hblank).2 j hj
  · intro sh t h d ht1 ht2 ht3 hrd
    unfold readTable at hrd
    simp only [ht1, ht2, ht3] at hrd
    have hd := (Except.ok.inj hrd).symm
    rw [hd]

/-- C3, witness: on the multi-header fixture the body row keeps its leading
blanks only because everything to their left is blank. -/
theorem c3_amended_witness :
    ([CellV.blank, CellV.blank, CellV.str "c"] : List CellV).get? 0 =
      some CellV.blank :=
  c3_amended_theorem.1 sheetMultiHeader cfgMultiHeader [1, 2, 3] dfMultiHeader
    rfl rfl rfl rfl rfl [CellV.blank, CellV.blank, CellV.str "c"]
    (by simp [dfMultiHeader]) 1 rfl 0 (by omega)

/-! ## C7: the coercion and sanitisation retry structure -/

theorem toNumericCell_shape (c b : CellV) (h : toNumericCell c = some b) :
    b = CellV.blank ∨ ∃ q, b = CellV.num q := by
  cases c with
  | blank =>
    simp [toNumericCell] at h
    exact Or.inl h.symm
  | num q =>
    simp [toNumericCell] at h
    exact Or.inr ⟨q, h.symm⟩
  | str s =>
    simp only [toNumericCell] at h
    match hp : parsePyNumber s with
    | some q =>
      rw [hp] at h
      exact Or.inr ⟨q, (Option.some.inj h).symm⟩
    | none =>
      rw [hp] at h
      exact absurd h (by simp)

theorem toNumericColAux_shape : ∀ (col nc : List CellV),
    toNumericColAux col = some nc →
    ∀ v ∈ nc, v = CellV.blank ∨ ∃ q, v = CellV.num q := by
  intro col
  induction col with
  | nil =>
    intro nc h v hv
    simp only [toNumericColAux, Option.some.injEq] at h
    rw [← h] at hv
    exact absurd hv (List.not_mem_nil v)
  | cons c rest ih =>
    intro nc h v hv
    unfold toNumericColAux at h
    match h1 : toNumericCell c, h2 : toNumericColAux rest with
    | some b, some bs =>
      rw [h1, h2] at h
      simp only [Option.some.injEq] at h
      rw [← h] at hv
      rcases List.mem_cons.mp hv with hvb | hvbs
      · rw [hvb]
        exact toNumericCell_shape c b h1
      · exact ih bs h2 v hvbs
    | some b, none => rw [h1, h2] at h; simp at h
    | none, some bs => rw [h1, h2] at h; simp at h
    | none, none => rw [h1, h2] at h; simp at h

/-- C7: for every column, whole-column coercion is attempted first; when it
succeeds the column is the coerced numeric one (every value null or
numeric); when it fails, the sanitisation pass is applied to the string
values and coercion is retried exactly once, and a second failure leaves the
column as the cleaned text; every raise is caught, so the caller always gets
a column back. -/
theorem c7_theorem :
    ∀ col : List CellV,
      (∃ nc, toNumericColE col = Except.ok nc ∧ castColumn col = nc ∧
        ∀ v ∈ nc, v = CellV.blank ∨ ∃ q, v = CellV.num q) ∨
      (∃ e, toNumericColE col = Except.error e ∧
        ((∃ nc2, toNumericColE (cleanedColumn col) = Except.ok nc2 ∧
          castColumn col = nc2 ∧
          ∀ v ∈ nc2, v = CellV.blank ∨ ∃ q, v = CellV.num q) ∨
         (∃ e2, toNumericColE (cleanedColumn col) = Except.error e2 ∧
          castColumn col = cleanedColumn col))) := by
  intro col
  unfold castColumn
  match h1 : toNumericColE col with
  | Except.ok nc =>
    refine Or.inl ⟨nc, rfl, rfl, ?_⟩
    unfold toNumericColE at h1
    match h2 : toNumericColAux col with
    | some nc2 =>
      rw [h2] at h1
      simp only [Except.ok.injEq] at h1
      rw [← h1]
      exact toNumericColAux_shape col nc2 h2
    | none => rw [h2] at h1; exact absurd h1 (by simp)
  | Except.error e =>
    refine Or.inr ⟨e, rfl, ?_⟩
    match h2 : toNumericColE (cleanedColumn col) with
    | Except.ok nc2 =>
      refine Or.inl ⟨nc2, rfl, rfl, ?_⟩
      unfold toNumericColE at h2
      match h3 : toNumericColAux (cleanedColumn col) with
      | some nc3 =>
        rw [h3] at h2
        simp only [Except.ok.injEq] at h2
        rw [← h2]
        exact toNumericColAux_shape _ nc3 h3
      | none => rw [h3] at h2; exact absurd h2 (by simp)
    | Except.error e2 => exact Or.inr ⟨e2, rfl, rfl⟩

theorem pctCellsGo_closed (sh : Sheet) (spec : Option SkipSpec) (c minRow : Nat)
    (cIdx : Int) :
    ∀ (m i skipped : Nat), skipped ≤ i →
      pctCellsGo spec minRow cIdx
        ((List.range m).map (fun k => getCell sh (minRow + i + k) c)) i skipped =
      (((((List.range m).map (fun k => minRow + i + k)).filter
          (fun r => !isSkippedRowPct spec r)).enumFrom (i - skipped)).filterMap
        (fun p => if isPctCell (getCell sh p.2 c) then
          some (((p.1 : Nat) : Int), cIdx) else none)) := by
  intro m
  induction m with
  | zero => intro i skipped hsk; rfl
  | succ m ih =>
    intro i skipped hsk
    rw [List.range_succ_eq_map]
    rw [List.map_cons, List.map_cons, List.map_map, List.map_map]
    have hf1 : ((fun k => getCell sh (minRow + i + k) c) ∘ Nat.succ) =
        (fun k => getCell sh (minRow + (i + 1) + k) c) := by
      funext k
      have : minRow + i + (k + 1) = minRow + (i + 1) + k := by omega
      simp [Function.comp, Nat.succ_eq_add_one]
      rw [show minRow + i + (k + 1) = minRow + (i + 1) + k from by omega]
    have hf2 : ((fun k => minRow + i + k) ∘ Nat.succ) =
        (fun k => minRow + (i + 1) + k) := by
      funext k
      simp [Function.comp, Nat.succ_eq_add_one]
      omega
    rw [hf1, hf2]
    show pctCellsGo spec minRow cIdx
        (getCell sh (minRow + i + 0) c :: _) i skipped = _
    rw [show minRow + i + 0 = minRow + i from by omega]
    unfold pctCellsGo
    by_cases hskip : isSkippedRowPct spec (minRow + i) = true
    · rw [if_pos hskip]
      rw [ih (i + 1) (skipped + 1) (by omega)]
      rw [List.filter_cons]
      simp only [hskip, Bool.not_true]
      rw [if_neg Bool.false_ne_true]
      rw [show i + 1 - (skipped + 1) = i - skipped from by omega]
    · rw [if_neg hskip]
      rw [List.filter_cons]
      have hks : (!isSkippedRowPct spec (minRow + i)) = true := by
        simp only [Bool.not_eq_true'] at hskip ⊢
        simpa using hskip
      rw [hks, if_pos rfl]
      rw [show (List.enumFrom (i - skipped) ((minRow + i) :: _)) =
        ((i - skipped), minRow + i) :: List.enumFrom (i - skipped + 1) _ from rfl]
      rw [List.filterMap_cons]
      by_cases hpct : isPctCell (getCell sh (minRow + i) c) = true
      · rw [if_pos hpct]
        simp only [hpct, if_pos rfl]
        rw [ih (i + 1) skipped (by omega)]
        rw [show i + 1 - skipped = i - skipped + 1 from by omega]
        congr 1
        push_cast [show ((minRow : Int) + i) - minRow - skipped = ((i - skipped : Nat) : Int) from by omega]
        constructor
      · rw [if_neg hpct]
        simp only [hpct]
        rw [if_neg (by simp)]
        rw [ih (i + 1) skipped (by omega)]
        rw [show i + 1 - skipped = i - skipped + 1 from by omega]

/-- A nonnegative in-range position resolves to itself under iloc. -/
theorem pyIlocIdx_natCast (i n : Nat) (h : i < n) : pyIlocIdx (i : Int) n = some i := by
  unfold pyIlocIdx
  rw [if_pos ⟨Int.ofNat_nonneg i, by exact_mod_cast h⟩]
  simp

/-- A difference of column numbers resolves to the data column index under iloc. -/
theorem pyIlocIdx_subCast (c m n : Nat) (h1 : m ≤ c) (h2 : c - m < n) :
    pyIlocIdx ((c : Int) - (m : Int)) n = some (c - m) := by
  rw [show (c : Int) - (m : Int) = ((c - m : Nat) : Int) from by omega]
  exact pyIlocIdx_natCast _ _ h2

theorem get?_isSome_of_lt {α : Type} (l : List α) (i : Nat) (h : i < l.length) :
    ∃ a, l.get? i = some a := by
  cases hg : l.get? i with
  | none => exact absurd (List.get?_eq_none.mp hg) (by omega)
  | some a => exact ⟨a, rfl⟩

theorem get?_set_self_of_lt {α : Type} (l : List α) (i : Nat) (a : α)
    (h : i < l.length) : (l.set i a).get? i = some a := by
  rw [List.get?_set_eq]
  obtain ⟨b, hb⟩ := get?_isSome_of_lt l i h
  rw [hb]
  rfl

/-- Pointwise effect of scaling one cell in place. -/
theorem cellAtRows_set_scaled (R : List (List CellV)) (b j ncols : Nat)
    (hrect : ∀ k row, R.get? k = some row → row.length = ncols)
    (hb : b < R.length) (hj : j < ncols) (i c' : Nat) :
    cellAtRows (R.set b (((R.get? b).getD []).set j
        (cellTimes100 ((((R.get? b).getD []).get? j).getD CellV.blank)))) i c' =
      if i = b ∧ c' = j then cellTimes100 (cellAtRows R b j)
      else cellAtRows R i c' := by
  obtain ⟨row0, hrow0⟩ := get?_isSome_of_lt R b hb
  have hrl : row0.length = ncols := hrect b row0 hrow0
  by_cases hib : i = b
  · subst hib
    by_cases hcj : c' = j
    · subst hcj
      rw [if_pos ⟨rfl, rfl⟩]
      simp only [cellAtRows, hrow0, Option.getD_some]
      rw [get?_set_self_of_lt _ _ _ hb]
      simp only [Option.getD_some]
      rw [get?_set_self_of_lt _ _ _ (by omega)]
      simp only [Option.getD_some]
    · rw [if_neg (fun h => hcj h.2)]
      simp only [cellAtRows, hrow0, Option.getD_some]
      rw [get?_set_self_of_lt _ _ _ hb]
      simp only [Option.getD_some]
      rw [List.get?_set_ne _ _ (fun h => hcj h.symm)]
  · rw [if_neg (fun h => hib h.1)]
    simp only [cellAtRows, hrow0, Option.getD_some]
    rw [List.get?_set_ne _ _ (fun h => hib h.symm)]

/-- Pointwise effect of scaling a whole positional column. -/
theorem applyWholeCol_ok (R : List (List CellV)) (cIdx : Int) (ncols j : Nat)
    (hj : pyIlocIdx cIdx ncols = some j) (hjn : j < ncols)
    (hrect : ∀ k row, R.get? k = some row → row.length = ncols) :
    ∃ R2, applyWholeCol R cIdx ncols = Except.ok R2 ∧
      R2.length = R.length ∧
      (∀ k row, R2.get? k = some row → row.length = ncols) ∧
      ∀ i c', cellAtRows R2 i c' =
        if i < R.length ∧ c' = j then cellTimes100 (cellAtRows R i c')
        else cellAtRows R i c' := by
  refine ⟨R.map (fun r => r.set j (cellTimes100 ((r.get? j).getD CellV.blank))),
    ?_, by simp, ?_, ?_⟩
  · unfold applyWholeCol
    rw [hj]
  · intro k row hk
    rw [List.get?_map] at hk
    cases h0 : R.get? k with
    | none => rw [h0] at hk; exact absurd hk (by simp)
    | some row0 =>
      rw [h0] at hk
      simp only [Option.map_some'] at hk
      have := Option.some.inj hk
      rw [← this, List.length_set]
      exact hrect k row0 h0
  · intro i c'
    by_cases hi : i < R.length
    · obtain ⟨row0, h0⟩ := get?_isSome_of_lt R i hi
      have hrl := hrect i row0 h0
      by_cases hcj : c' = j
      · subst hcj
        rw [if_pos ⟨hi, rfl⟩]
        simp only [cellAtRows, h0, Option.getD_some]
        rw [List.get?_map, h0]
        simp only [Option.map_some', Option.getD_some]
        rw [get?_set_self_of_lt _ _ _ (by omega)]
        simp only [Option.getD_some]
      · rw [if_neg (fun h => hcj h.2)]
        simp only [cellAtRows, h0, Option.getD_some]
        rw [List.get?_map, h0]
        simp only [Option.map_some', Option.getD_some]
        rw [List.get?_set_ne _ _ (fun h => hcj h.symm)]
    · rw [if_neg (fun h => hi h.1)]
      have hnone : R.get? i = none := List.get?_eq_none.mpr (by omega)
      simp only [cellAtRows, hnone]
      rw [List.get?_map, hnone]
      simp

/-- Pointwise effect of folding single-cell scalings over the flagged cells
of one column, enumerated from a base rank. -/
theorem applyPairs_ok (sh : Sheet) (c : Nat) (cIdx : Int) (ncols j : Nat)
    (hj : pyIlocIdx cIdx ncols = some j) (hjn : j < ncols) :
    ∀ (kl : List Nat) (b : Nat) (R : List (List CellV)),
      b + kl.length ≤ R.length →
      (∀ k row, R.get? k = some row → row.length = ncols) →
      ∃ R2,
        (((kl.enumFrom b).filterMap
            (fun p => if isPctCell (getCell sh p.2 c) then
              some (((p.1 : Nat) : Int), cIdx) else none)).foldlM
          (fun rs2 pr => applyCellAt rs2 pr.1 pr.2 ncols) R) = Except.ok R2 ∧
        R2.length = R.length ∧
        (∀ k row, R2.get? k = some row → row.length = ncols) ∧
        ∀ i c', cellAtRows R2 i c' =
          if b ≤ i ∧ i < b + kl.length ∧
              isPctCell (getCell sh (kl.getD (i - b) 0) c) = true ∧ c' = j
          then cellTimes100 (cellAtRows R i c') else cellAtRows R i c' := by
  intro kl
  induction kl with
  | nil =>
    intro b R hb hrect
    refine ⟨R, rfl, rfl, hrect, ?_⟩
    intro i c'
    by_cases hcond : b ≤ i ∧ i < b + ([] : List Nat).length ∧
        isPctCell (getCell sh (([] : List Nat).getD (i - b) 0) c) = true ∧ c' = j
    · exfalso
      obtain ⟨h1, h2, -⟩ := hcond
      simp only [List.length_nil] at h2
      omega
    · rw [if_neg hcond]
  | cons r rest ih =>
    intro b R hb hrect
    simp only [List.length_cons] at hb
    have hbR : b < R.length := by omega
    rw [List.enumFrom_cons]
    cases hpct : isPctCell (getCell sh r c) with
    | true =>
      rw [List.filterMap_cons]
      simp only [hpct, reduceIte]
      rw [List.foldlM_cons]
      have happ : applyCellAt R ((b : Nat) : Int) cIdx ncols =
          Except.ok (R.set b (((R.get? b).getD []).set j
            (cellTimes100 ((((R.get? b).getD []).get? j).getD CellV.blank)))) := by
        unfold applyCellAt
        rw [pyIlocIdx_natCast b R.length hbR, hj]
      have hrect1 : ∀ k row,
          (R.set b (((R.get? b).getD []).set j
            (cellTimes100 ((((R.get? b).getD []).get? j).getD CellV.blank)))).get? k =
            some row → row.length = ncols := by
        intro k row hk
        by_cases hkb : k = b
        · subst hkb
          rw [get?_set_self_of_lt _ _ _ hbR] at hk
          cases Option.some.inj hk
          rw [List.length_set]
          obtain ⟨row0, h0⟩ := get?_isSome_of_lt R k hbR
          rw [h0, Option.getD_some]
          exact hrect k row0 h0
        · rw [List.get?_set_ne _ _ (fun h => hkb h.symm)] at hk
          exact hrect k row hk
      have hlen1 : b + 1 + rest.length ≤
          (R.set b (((R.get? b).getD []).set j
            (cellTimes100 ((((R.get? b).getD []).get? j).getD CellV.blank)))).length := by
        rw [List.length_set]
        omega
      obtain ⟨R2, hfold, hlen2, hrect2, hpt2⟩ := ih (b + 1) _ hlen1 hrect1
      have hset := cellAtRows_set_scaled R b j ncols hrect hbR hjn
      refine ⟨R2, ?_, ?_, hrect2, ?_⟩
      · rw [happ, exceptBind_ok]
        exact ⟨_, rfl, hfold⟩
      · rw [hlen2, List.length_set]
      · intro i c'
        rw [hpt2 i c', hset i c']
        by_cases hB : b + 1 ≤ i ∧ i < b + 1 + rest.length ∧
            isPctCell (getCell sh (rest.getD (i - (b + 1)) 0) c) = true ∧ c' = j
        · have h1 := hB.1
          have h3 := hB.2.2.1
          have h4 := hB.2.2.2
          rw [if_pos hB]
          rw [if_neg (show ¬(i = b ∧ c' = j) from fun h => by
            rw [h.1] at h1; omega)]
          rw [if_pos (show b ≤ i ∧ i < b + (r :: rest).length ∧
              isPctCell (getCell sh ((r :: rest).getD (i - b) 0) c) = true ∧
              c' = j from ⟨by omega,
                by simp only [List.length_cons]; omega,
                by rw [show i - b = (i - (b + 1)) + 1 from by omega,
                  List.getD_cons_succ]; exact h3, h4⟩)]
        · rw [if_neg hB]
          by_cases hS : i = b ∧ c' = j
          · rw [if_pos hS]
            obtain ⟨hSi, hSj⟩ := hS
            subst hSi
            subst hSj
            rw [if_pos (show i ≤ i ∧ i < i + (r :: rest).length ∧
                isPctCell (getCell sh ((r :: rest).getD (i - i) 0) c) = true ∧
                c' = c' from ⟨le_refl i,
                  by simp only [List.length_cons]; omega,
                  by rw [Nat.sub_self, List.getD_cons_zero]; exact hpct, rfl⟩)]
          · rw [if_neg hS]
            rw [if_neg (show ¬(b ≤ i ∧ i < b + (r :: rest).length ∧
                isPctCell (getCell sh ((r :: rest).getD (i - b) 0) c) = true ∧
                c' = j) from by
              rintro ⟨h1, h2, h3, h4⟩
              rcases Nat.eq_or_lt_of_le h1 with heq | hlt
              · exact hS ⟨heq.symm, h4⟩
              · apply hB
                refine ⟨by omega, by simp only [List.length_cons] at h2; omega,
                  ?_, h4⟩
                rw [show i - b = (i - (b + 1)) + 1 from by omega,
                  List.getD_cons_succ] at h3
                exact h3)]
    | false =>
      rw [List.filterMap_cons]
      simp only [hpct, reduceIte]
      obtain ⟨R2, hfold, hlen2, hrect2, hpt2⟩ := ih (b + 1) R (by omega) hrect
      refine ⟨R2, hfold, hlen2, hrect2, ?_⟩
      intro i c'
      rw [hpt2 i c']
      by_cases hB : b + 1 ≤ i ∧ i < b + 1 + rest.length ∧
          isPctCell (getCell sh (rest.getD (i - (b + 1)) 0) c) = true ∧ c' = j
      · have h1 := hB.1
        have h3 := hB.2.2.1
        have h4 := hB.2.2.2
        rw [if_pos hB]
        rw [if_pos (show b ≤ i ∧ i < b + (r :: rest).length ∧
            isPctCell (getCell sh ((r :: rest).getD (i - b) 0) c) = true ∧
            c' = j from ⟨by omega,
              by simp only [List.length_cons]; omega,
              by rw [show i - b = (i - (b + 1)) + 1 from by omega,
                List.getD_cons_succ]; exact h3, h4⟩)]
      · rw [if_neg hB]
        rw [if_neg (show ¬(b ≤ i ∧ i < b + (r :: rest).length ∧
            isPctCell (getCell sh ((r :: rest).getD (i - b) 0) c) = true ∧
            c' = j) from by
          rintro ⟨h1, h2, h3, h4⟩
          rcases Nat.eq_or_lt_of_le h1 with heq | hlt
          · rw [← heq, Nat.sub_self, List.getD_cons_zero] at h3
            rw [hpct] at h3
            exact Bool.false_ne_true h3
          · apply hB
            refine ⟨by omega, by simp only [List.length_cons] at h2; omega,
              ?_, h4⟩
            rw [show i - b = (i - (b + 1)) + 1 from by omega,
              List.getD_cons_succ] at h3
            exact h3)]

/-- The flagged-cell walk of a column, restated over the kept sheet rows. -/
theorem pctPairsForCol_closed (sh : Sheet) (t : TableConfig) (c : Nat) :
    pctPairsForCol sh t c =
      ((keptSheetRows t).enumFrom 0).filterMap
        (fun p => if isPctCell (getCell sh p.2 c) then
          some (((p.1 : Nat) : Int),
            (c : Int) - (rangeFirstCol t.columnRange : Int)) else none) := by
  simp only [pctPairsForCol, sheetColCells, keptSheetRows]
  have hcl := pctCellsGo_closed sh t.skipRows c (lastHeaderRowOf t.headerRows + 1)
    ((c : Int) - (rangeFirstCol t.columnRange : Int))
    (t.endRow + 1 - (lastHeaderRowOf t.headerRows + 1)) 0 0 (le_refl 0)
  have hf : (fun k => getCell sh (lastHeaderRowOf t.headerRows + 1 + 0 + k) c) =
      (fun i => getCell sh (lastHeaderRowOf t.headerRows + 1 + i) c) := by
    funext k
    rw [Nat.add_zero]
  have hg : (fun k => lastHeaderRowOf t.headerRows + 1 + 0 + k) =
      (fun k => lastHeaderRowOf t.headerRows + 1 + k) := by
    funext k
    rw [Nat.add_zero]
  rw [hf, hg, Nat.sub_self] at hcl
  exact hcl

/-- A length-preserving filterMap keeps every element. -/
theorem filterMap_length_eq_isSome {α β : Type} (g : α → Option β) :
    ∀ l : List α, (l.filterMap g).length = l.length →
      ∀ a ∈ l, (g a).isSome = true := by
  intro l
  induction l with
  | nil =>
    intro _ a ha
    exact absurd ha (List.not_mem_nil a)
  | cons x xs ih =>
    intro hlen a ha
    rw [List.filterMap_cons] at hlen
    cases hgx : g x with
    | none =>
      rw [hgx] at hlen
      exfalso
      have hle := List.length_filterMap_le g xs
      simp only [List.length_cons] at hlen
      omega
    | some b =>
      rw [hgx] at hlen
      simp only [List.length_cons] at hlen
      rcases List.mem_cons.mp ha with rfl | hmem
      · rw [hgx]
        rfl
      · exact ih (by omega) a hmem

/-- Per-column action of the percentage postprocessor: the decision succeeds
and its application scales exactly the flagged data cells of that column. -/
theorem pctDecision_action (sh : Sheet) (t : TableConfig) (c ncols : Nat)
    (R : List (List CellV))
    (hspan : lastHeaderRowOf t.headerRows + 1 ≤ t.endRow)
    (hc1 : rangeFirstCol t.columnRange ≤ c)
    (hc2 : c - rangeFirstCol t.columnRange < ncols)
    (hR : R.length = (keptSheetRows t).length)
    (hrect : ∀ k row, R.get? k = some row → row.length = ncols) :
    ∃ pc R1, pctColDecision sh t c = Except.ok pc ∧
      pctApplyStep ncols R pc = Except.ok R1 ∧
      R1.length = R.length ∧
      (∀ k row, R1.get? k = some row → row.length = ncols) ∧
      ∀ i c', cellAtRows R1 i c' =
        if i < (keptSheetRows t).length ∧
            isPctCell (getCell sh ((keptSheetRows t).getD i 0) c) = true ∧
            c' = c - rangeFirstCol t.columnRange
        then cellTimes100 (cellAtRows R i c') else cellAtRows R i c' := by
  have hj : pyIlocIdx ((c : Int) - (rangeFirstCol t.columnRange : Int)) ncols =
      some (c - rangeFirstCol t.columnRange) := pyIlocIdx_subCast _ _ _ hc1 hc2
  have hpairs := pctPairsForCol_closed sh t c
  by_cases hfull : ((pctPairsForCol sh t c).length : Int) =
      (t.endRow : Int) - ((lastHeaderRowOf t.headerRows + 1 : Nat) : Int) + 1
  · -- full-span column: the whole data column is scaled
    have hlenNat : (pctPairsForCol sh t c).length =
        t.endRow + 1 - (lastHeaderRowOf t.headerRows + 1) := by omega
    have hk1 : (keptSheetRows t).length ≤
        t.endRow + 1 - (lastHeaderRowOf t.headerRows + 1) := by
      simp only [keptSheetRows]
      exact le_trans (List.length_filter_le _ _)
        (by rw [List.length_map, List.length_range])
    have hk2 : (pctPairsForCol sh t c).length ≤ (keptSheetRows t).length := by
      rw [hpairs]
      exact le_trans (List.length_filterMap_le _ _)
        (le_of_eq List.enumFrom_length)
    have hfm : ((((keptSheetRows t).enumFrom 0).filterMap
        (fun p => if isPctCell (getCell sh p.2 c) then
          some (((p.1 : Nat) : Int),
            (c : Int) - (rangeFirstCol t.columnRange : Int)) else none)).length) =
        ((keptSheetRows t).enumFrom 0).length := by
      rw [← hpairs, List.enumFrom_length]
      omega
    have hall : ∀ i, i < (keptSheetRows t).length →
        isPctCell (getCell sh ((keptSheetRows t).getD i 0) c) = true := by
      intro i hi
      obtain ⟨v, hv⟩ := get?_isSome_of_lt (keptSheetRows t) i hi
      have hmem : (((0 + i : Nat), v) : Nat × Nat) ∈
          (keptSheetRows t).enumFrom 0 := by
        refine List.get?_mem (n := i) ?_
        rw [List.get?_enumFrom, hv]
        rfl
      have hsome := filterMap_length_eq_isSome _ _ hfm _ hmem
      rw [List.getD_eq_get?, hv, Option.getD_some]
      cases hia : isPctCell (getCell sh v c) with
      | true => rfl
      | false =>
        exfalso
        simp only [hia, reduceIte, Option.isSome_none] at hsome
        exact Bool.false_ne_true hsome
    cases hpcs : pctPairsForCol sh t c with
    | nil =>
      exfalso
      rw [hpcs] at hlenNat
      simp only [List.length_nil] at hlenNat
      omega
    | cons p ps =>
      have hsnd : ∀ x ∈ pctPairsForCol sh t c,
          x.2 = (c : Int) - (rangeFirstCol t.columnRange : Int) := by
        intro x hx
        rw [hpairs] at hx
        obtain ⟨a, ha, hga⟩ := List.mem_filterMap.mp hx
        cases hia : isPctCell (getCell sh a.2 c) with
        | true =>
          rw [hia] at hga
          rw [if_pos rfl] at hga
          cases Option.some.inj hga
          rfl
        | false =>
          rw [hia] at hga
          rw [if_neg Bool.false_ne_true] at hga
          exact absurd hga (by simp)
      have hp2 : p.2 = (c : Int) - (rangeFirstCol t.columnRange : Int) :=
        hsnd p (by rw [hpcs]; exact List.mem_cons_self p ps)
      obtain ⟨R2, happly, hlen2, hrect2, hpt⟩ :=
        applyWholeCol_ok R ((c : Int) - (rangeFirstCol t.columnRange : Int))
          ncols (c - rangeFirstCol t.columnRange) hj hc2 hrect
      refine ⟨PctCol.whole p.2, R2, ?_, ?_, hlen2, hrect2, ?_⟩
      · simp only [pctColDecision, decide_eq_true_eq]
        rw [if_pos hfull, hpcs]
      · show applyWholeCol R p.2 ncols = Except.ok R2
        rw [hp2]
        exact happly
      · intro i c'
        rw [hpt i c']
        refine if_congr ?_ rfl rfl
        constructor
        · rintro ⟨h1, h2⟩
          exact ⟨by omega, hall i (by omega), h2⟩
        · rintro ⟨h1, -, h2⟩
          exact ⟨by omega, h2⟩
  · -- mixed column: only the flagged cells are scaled
    obtain ⟨R2, hfold, hlen2, hrect2, hpt⟩ :=
      applyPairs_ok sh c ((c : Int) - (rangeFirstCol t.columnRange : Int)) ncols
        (c - rangeFirstCol t.columnRange) hj hc2 (keptSheetRows t) 0 R
        (by omega) hrect
    refine ⟨PctCol.cells (pctPairsForCol sh t c), R2, ?_, ?_, hlen2, hrect2, ?_⟩
    · simp only [pctColDecision, decide_eq_true_eq]
      rw [if_neg hfull]
    · show (pctPairsForCol sh t c).foldlM
        (fun rs2 pr => applyCellAt rs2 pr.1 pr.2 ncols) R = Except.ok R2
      rw [hpairs]
      exact hfold
    · intro i c'
      rw [hpt i c']
      refine if_congr ?_ rfl rfl
      constructor
      · rintro ⟨-, h2, h3, h4⟩
        rw [Nat.sub_zero] at h3
        exact ⟨by omega, h3, h4⟩
      · rintro ⟨h1, h3, h4⟩
        refine ⟨Nat.zero_le i, by omega, ?_, h4⟩
        rw [Nat.sub_zero]
        exact h3
/-- The percentage scan and application over a list of distinct sheet
columns of the declared range. -/
theorem pctFold_ok (sh : Sheet) (t : TableConfig) (ncols : Nat)
    (hspan : lastHeaderRowOf t.headerRows + 1 ≤ t.endRow) :
    ∀ (cs : List Nat) (R : List (List CellV)),
      (∀ c ∈ cs, rangeFirstCol t.columnRange ≤ c ∧
        c - rangeFirstCol t.columnRange < ncols) →
      cs.Nodup →
      R.length = (keptSheetRows t).length →
      (∀ k row, R.get? k = some row → row.length = ncols) →
      ∃ pcs R2, pctColumnsForAux sh t cs = Except.ok pcs ∧
        pcs.foldlM (pctApplyStep ncols) R = Except.ok R2 ∧
        R2.length = R.length ∧
        (∀ k row, R2.get? k = some row → row.length = ncols) ∧
        ∀ i c', cellAtRows R2 i c' =
          if (rangeFirstCol t.columnRange + c') ∈ cs ∧
              i < (keptSheetRows t).length ∧
              isPctCell (getCell sh ((keptSheetRows t).getD i 0)
                (rangeFirstCol t.columnRange + c')) = true
          then cellTimes100 (cellAtRows R i c') else cellAtRows R i c' := by
  intro cs
  induction cs with
  | nil =>
    intro R hmem hnd hR hrect
    refine ⟨[], R, rfl, rfl, rfl, hrect, ?_⟩
    intro i c'
    rw [if_neg (fun h => List.not_mem_nil _ h.1)]
  | cons c rest ih =>
    intro R hmem hnd hR hrect
    have hc := hmem c (List.mem_cons_self c rest)
    have hcnotin : c ∉ rest := (List.nodup_cons.mp hnd).1
    obtain ⟨pc, R1, hdec, hact, hlen1, hrect1, hpt1⟩ :=
      pctDecision_action sh t c ncols R hspan hc.1 hc.2 hR hrect
    obtain ⟨pcs2, R2, haux, hfold, hlen2, hrect2, hpt2⟩ :=
      ih R1 (fun c2 h2 => hmem c2 (List.mem_cons_of_mem c h2))
        (List.Nodup.of_cons hnd) (hlen1.trans hR) hrect1
    refine ⟨pc :: pcs2, R2, ?_, ?_, hlen2.trans hlen1, hrect2, ?_⟩
    · simp only [pctColumnsForAux]
      rw [exceptBind_ok]
      refine ⟨pc, hdec, ?_⟩
      rw [exceptBind_ok]
      exact ⟨pcs2, haux, rfl⟩
    · rw [List.foldlM_cons]
      rw [exceptBind_ok]
      exact ⟨R1, hact, hfold⟩
    · intro i c'
      rw [hpt2 i c', hpt1 i c']
      by_cases hB : (rangeFirstCol t.columnRange + c') ∈ rest ∧
          i < (keptSheetRows t).length ∧
          isPctCell (getCell sh ((keptSheetRows t).getD i 0)
            (rangeFirstCol t.columnRange + c')) = true
      · rw [if_pos hB]
        have hnA : ¬(i < (keptSheetRows t).length ∧
            isPctCell (getCell sh ((keptSheetRows t).getD i 0) c) = true ∧
            c' = c - rangeFirstCol t.columnRange) := by
          rintro ⟨-, -, h3⟩
          apply hcnotin
          have hceq : rangeFirstCol t.columnRange + c' = c := by
            have := hc.1
            omega
          rw [← hceq]
          exact hB.1
        rw [if_neg hnA]
        rw [if_pos ⟨List.mem_cons_of_mem c hB.1, hB.2⟩]
      · rw [if_neg hB]
        by_cases hA : i < (keptSheetRows t).length ∧
            isPctCell (getCell sh ((keptSheetRows t).getD i 0) c) = true ∧
            c' = c - rangeFirstCol t.columnRange
        · rw [if_pos hA]
          have hceq : rangeFirstCol t.columnRange + c' = c := by
            have h3 := hA.2.2
            have := hc.1
            omega
          rw [if_pos ⟨by rw [hceq]; exact List.mem_cons_self c rest, hA.1,
            by rw [hceq]; exact hA.2.1⟩]
        · rw [if_neg hA]
          rw [if_neg (show ¬((rangeFirstCol t.columnRange + c') ∈ c :: rest ∧
              i < (keptSheetRows t).length ∧
              isPctCell (getCell sh ((keptSheetRows t).getD i 0)
                (rangeFirstCol t.columnRange + c')) = true) from by
            rintro ⟨h1, h2, h3⟩
            rcases List.mem_cons.mp h1 with heq | hmem2
            · refine hA ⟨h2, ?_, ?_⟩
              · rw [← heq]
                exact h3
              · have := hc.1
                omega
            · exact hB ⟨hmem2, h2, h3⟩)]

/-- C4: the percentage postprocessor succeeds on a data frame of the
extracted shape, and a data cell at row rank i and data column c' is
multiplied by 100 exactly when the sheet cell at the i-th kept body row
(the rows of the declared span surviving skip_rows) of sheet column
minCol + c' is percentage-formatted: a column whose counted span is all
percentage cells is scaled whole, a mixed column only at its flagged
cells, with the data-row index offset past every skipped row. -/
theorem c4_theorem (sh : Sheet) (t : TableConfig) (data : DataFrame)
    (hspan : lastHeaderRowOf t.headerRows + 1 ≤ t.endRow)
    (hcols : data.cols.length =
      rangeLastCol t.columnRange + 1 - rangeFirstCol t.columnRange)
    (hrows : data.rows.length = (keptSheetRows t).length)
    (hrect : ∀ k row, data.rows.get? k = some row →
      row.length = data.cols.length) :
    ∃ out, postprocessPercentageColumns sh t data = Except.ok out ∧
      out.cols = data.cols ∧
      out.rows.length = data.rows.length ∧
      ∀ i c', cellAt out i c' =
        if i < (keptSheetRows t).length ∧ c' < data.cols.length ∧
            isPctCell (getCell sh ((keptSheetRows t).getD i 0)
              (rangeFirstCol t.columnRange + c')) = true
        then cellTimes100 (cellAt data i c') else cellAt data i c' := by
  have hmem : ∀ c2 ∈ (List.range (rangeLastCol t.columnRange + 1 -
      rangeFirstCol t.columnRange)).map
        (fun k => rangeFirstCol t.columnRange + k),
      rangeFirstCol t.columnRange ≤ c2 ∧
        c2 - rangeFirstCol t.columnRange < data.cols.length := by
    intro c2 hcm
    obtain ⟨k, hk, hke⟩ := List.mem_map.mp hcm
    have hkw := List.mem_range.mp hk
    constructor
    · omega
    · rw [hcols]
      omega
  have hnd : ((List.range (rangeLastCol t.columnRange + 1 -
      rangeFirstCol t.columnRange)).map
        (fun k => rangeFirstCol t.columnRange + k)).Nodup :=
    List.Nodup.map (fun a b h => by omega)
      (List.nodup_range _)
  obtain ⟨pcs, R2, haux, hfold, hlen2, hrect2, hpt⟩ :=
    pctFold_ok sh t data.cols.length hspan
      ((List.range (rangeLastCol t.columnRange + 1 -
        rangeFirstCol t.columnRange)).map
          (fun k => rangeFirstCol t.columnRange + k))
      data.rows hmem hnd hrows hrect
  have hfor : pctColumnsFor sh t = Except.ok pcs := by
    simp only [pctColumnsFor]
    exact haux
  refine ⟨DataFrame.mk data.cols R2, ?_, rfl, hlen2, ?_⟩
  · unfold postprocessPercentageColumns
    rw [exceptBind_ok]
    refine ⟨pcs, hfor, ?_⟩
    rw [exceptBind_ok]
    exact ⟨R2, hfold, rfl⟩
  · intro i c'
    show cellAtRows R2 i c' = _
    rw [hpt i c']
    refine if_congr ?_ rfl rfl
    constructor
    · rintro ⟨h1, h2, h3⟩
      obtain ⟨k, hk, hke⟩ := List.mem_map.mp h1
      have hkw := List.mem_range.mp hk
      refine ⟨h2, ?_, h3⟩
      rw [hcols]
      omega
    · rintro ⟨h1, h2, h3⟩
      refine ⟨?_, h1, h3⟩
      refine List.mem_map.mpr ⟨c', ?_, rfl⟩
      rw [List.mem_range]
      rw [hcols] at h2
      exact h2

/-- Witness: the rescaling theorem applied to the concrete two-column sheet
with one skipped row, a mixed column and a fully formatted span. -/
theorem c4_witness :
    (lastHeaderRowOf cfgPct.headerRows + 1 ≤ cfgPct.endRow) ∧
    ∃ out, postprocessPercentageColumns wbPct cfgPct dfPct = Except.ok out ∧
      out.cols = dfPct.cols ∧
      out.rows.length = dfPct.rows.length ∧
      ∀ i c', cellAt out i c' =
        if i < (keptSheetRows cfgPct).length ∧ c' < dfPct.cols.length ∧
            isPctCell (getCell wbPct ((keptSheetRows cfgPct).getD i 0)
              (rangeFirstCol cfgPct.columnRange + c')) = true
        then cellTimes100 (cellAt dfPct i c') else cellAt dfPct i c' := by
  refine ⟨by decide,
    c4_theorem wbPct cfgPct dfPct (by decide) (by decide) (by decide) ?_⟩
  intro k row hk
  rcases k with _ | _ | _ | k
  · rw [show dfPct.rows.get? 0 = some [CellV.str "a", CellV.num 0] from rfl] at hk
    cases Option.some.inj hk
    rfl
  · rw [show dfPct.rows.get? 1 = some [CellV.str "b", CellV.num 7] from rfl] at hk
    cases Option.some.inj hk
    rfl
  · rw [show dfPct.rows.get? 2 = some [CellV.str "c", CellV.num 0] from rfl] at hk
    cases Option.some.inj hk
    rfl
  · rw [show dfPct.rows.get? (k + 3) = none from rfl] at hk
    exact absurd hk (by simp)

end ISP
